import Mathlib

set_option maxRecDepth 8000

/-!
Verification development for the `mae_pdf_processing` bank-statement parsers
(`api_parser.py`).  Text is shallowly embedded as lists of characters; each
Python helper and per-format pipeline is translated into an executable Lean
function, and the specified properties are proved or refuted against those
definitions.
-/

/-- A physical text line, as a list of characters. -/
abbrev Line := List Char

/-- The apostrophe character (U+0027), used to build string constants. -/
def aposChar : Char := Char.ofNat 39

/-- Substring containment, mirroring Python's `needle in hay`. -/
def containsSub (needle hay : Line) : Bool :=
  match hay with
  | [] => needle.isEmpty
  | _ :: t => needle.isPrefixOf hay || containsSub needle t

/-- Python `str.strip()`: drop leading and trailing whitespace. -/
def pyStrip (l : Line) : Line :=
  ((l.dropWhile Char.isWhitespace).reverse.dropWhile Char.isWhitespace).reverse

/-- Python `str.rstrip(cs)`: drop trailing characters belonging to `cs`. -/
def pyRstrip (cs : List Char) (l : Line) : Line :=
  (l.reverse.dropWhile (fun c => cs.contains c)).reverse

/-- Python `" ".join` / `", ".join` of a list of strings. -/
def joinWith (sep : Line) (ls : List Line) : Line :=
  match ls with
  | [] => []
  | [x] => x
  | x :: xs => x ++ sep ++ joinWith sep xs

theorem lengthDropWhileLe {α : Type} (p : α → Bool) :
    ∀ l : List α, (l.dropWhile p).length ≤ l.length := by
  intro l
  induction l with
  | nil => simp [List.dropWhile]
  | cons a as ih =>
    rw [List.dropWhile]
    cases p a <;> simp <;> omega

/-- Python `str.split()` with no argument: split on whitespace runs,
discarding empty pieces.  (Structural recursion on a length-derived fuel so
the kernel can evaluate it.) -/
def pySplitF : Nat → Line → List Line
  | 0, _ => []
  | fuel + 1, l =>
    match l.dropWhile Char.isWhitespace with
    | [] => []
    | c :: cs =>
      (c :: cs.takeWhile (fun d => !d.isWhitespace)) ::
        pySplitF fuel (cs.dropWhile (fun d => !d.isWhitespace))

def pySplit (l : Line) : List Line := pySplitF (l.length + 1) l

/-! ## Section Remover (`_remove_sections`, api_parser.py lines 33-45) -/

/-- The scan state machine of `_remove_sections`: `ins` is the Python
`in_section` flag.  A line containing the start marker sets the flag and is
dropped; a line containing the end marker clears the flag and is dropped;
other lines are kept exactly when the flag is clear. -/
def removeSectionsGo (s e : Line) : Bool → List Line → List Line
  | _, [] => []
  | ins, l :: ls =>
    if containsSub s l then removeSectionsGo s e true ls
    else if containsSub e l then removeSectionsGo s e false ls
    else if ins then removeSectionsGo s e ins ls
    else l :: removeSectionsGo s e ins ls

/-- `_remove_sections(lines, start_marker, end_marker)`. -/
def removeSections (lines : List Line) (s e : Line) : List Line :=
  removeSectionsGo s e false lines

/-- A line containing either marker (such lines are always consumed by the
scan). -/
def isMarker (s e : Line) (l : Line) : Bool := containsSub s l || containsSub e l

/-- Specification-side view of the scan state: a position is inside an open
section exactly when the most recent marker-bearing line before it contains
the start marker (a line holding both markers counts as a start, because the
code tests the start marker first). -/
def lastMarkerStart (s e : Line) (past : List Line) : Bool :=
  match past.reverse.find? (isMarker s e) with
  | some m => containsSub s m
  | none => false

/-- History-based reference formulation of the Section Remover: a line is
kept iff it carries no marker and is not inside an open section, where the
open-section test looks only at the most recent marker line in the history. -/
def removeSectionsSpec (s e : Line) (past : List Line) : List Line → List Line
  | [] => []
  | l :: ls =>
    if isMarker s e l || lastMarkerStart s e past then
      removeSectionsSpec s e (past ++ [l]) ls
    else
      l :: removeSectionsSpec s e (past ++ [l]) ls

theorem lastMarkerStart_append (s e : Line) (past : List Line) (l : Line) :
    lastMarkerStart s e (past ++ [l]) =
      (if isMarker s e l then containsSub s l else lastMarkerStart s e past) := by
  unfold lastMarkerStart
  rw [List.reverse_append]
  simp only [List.reverse_cons, List.reverse_nil, List.nil_append, List.singleton_append,
    List.find?]
  cases h : isMarker s e l <;> simp [h]

theorem removeSectionsGo_eq_spec (s e : Line) :
    ∀ (ls past : List Line),
      removeSectionsGo s e (lastMarkerStart s e past) ls = removeSectionsSpec s e past ls := by
  intro ls
  induction ls with
  | nil => intro past; rfl
  | cons l ls ih =>
    intro past
    rw [removeSectionsSpec]
    by_cases hs : containsSub s l = true
    · have hm : isMarker s e l = true := by simp [isMarker, hs]
      rw [if_pos (by rw [hm]; simp)]
      rw [← ih (past ++ [l]), lastMarkerStart_append, hm, if_pos rfl, hs]
      cases hb : lastMarkerStart s e past <;> simp [removeSectionsGo, hs]
    · by_cases he : containsSub e l = true
      · have hm : isMarker s e l = true := by simp [isMarker, he]
        rw [if_pos (by rw [hm]; simp)]
        rw [← ih (past ++ [l]), lastMarkerStart_append, hm, if_pos rfl]
        have hcs : containsSub s l = false := by simpa using hs
        rw [hcs]
        cases hb : lastMarkerStart s e past <;> simp [removeSectionsGo, hs, he]
      · have hm : isMarker s e l = false := by simp [isMarker, hs, he]
        have hlm : lastMarkerStart s e (past ++ [l]) = lastMarkerStart s e past := by
          rw [lastMarkerStart_append, hm]; simp
        cases hb : lastMarkerStart s e past
        · rw [if_neg (by simp [hm, hb])]
          rw [← ih (past ++ [l]), hlm, hb]
          simp [removeSectionsGo, hs, he, hb]
        · rw [if_pos (by simp [hm, hb])]
          rw [← ih (past ++ [l]), hlm, hb]
          simp [removeSectionsGo, hs, he]

/-! ## CIMB close-dates pre-filter (`_remove_close_dates`, lines 272-281) -/

/-- `re.match(r"\d{2}/\d{2}/\d{4}", s)`: the line starts with `DD/MM/YYYY`. -/
def cimbDateMatch (l : Line) : Bool :=
  match l with
  | a :: b :: c :: d :: e :: f :: g :: h :: i :: j :: _ =>
    a.isDigit && b.isDigit && c == '/' && d.isDigit && e.isDigit && f == '/' &&
      g.isDigit && h.isDigit && i.isDigit && j.isDigit
  | _ => false

/-- The index-collecting while loop of `_remove_close_dates`: a date line at
index `i` is recorded and the scan jumps to `i + 4`; otherwise the scan
advances by one.  The first argument is a fuel bounding the number of loop
iterations (the list length suffices, since each iteration consumes at least
one element). -/
def rcdValid : Nat → Nat → List Line → List Nat
  | 0, _, _ => []
  | _ + 1, _, [] => []
  | fuel + 1, i, l :: ls =>
    if cimbDateMatch l then i :: rcdValid fuel (i + 4) (ls.drop 3)
    else rcdValid fuel (i + 1) ls

/-- The list-comprehension phase of `_remove_close_dates`: keep a line iff its
index was recorded or it is not a date line. -/
def rcdFilter (valid : List Nat) : Nat → List Line → List Line
  | _, [] => []
  | i, l :: ls =>
    if i ∈ valid ∨ cimbDateMatch l = false then l :: rcdFilter valid (i + 1) ls
    else rcdFilter valid (i + 1) ls

/-- `_remove_close_dates(data)`. -/
def removeCloseDates (data : List Line) : List Line :=
  rcdFilter (rcdValid data.length 0 data) 0 data

/-- Single-pass reference formulation with a shadow counter: after a kept
date line the next three lines are in shadow — date lines there are dropped,
other lines kept; outside a shadow a date line is kept and opens a new
3-line shadow. -/
def closeDatesSpec : Nat → List Line → List Line
  | _, [] => []
  | 0, l :: ls =>
    if cimbDateMatch l then l :: closeDatesSpec 3 ls else l :: closeDatesSpec 0 ls
  | c + 1, l :: ls =>
    if cimbDateMatch l then closeDatesSpec c ls else l :: closeDatesSpec c ls

theorem rcdValid_ge :
    ∀ (fuel : Nat) (ls : List Line) (i j : Nat), j ∈ rcdValid fuel i ls → i ≤ j := by
  intro fuel
  induction fuel with
  | zero => intro ls i j h; simp [rcdValid] at h
  | succ n ih =>
    intro ls i j h
    match ls with
    | [] => simp [rcdValid] at h
    | l :: ls' =>
      by_cases hd : cimbDateMatch l
      · rw [rcdValid, if_pos hd] at h
        rcases List.mem_cons.mp h with h' | h'
        · omega
        · have := ih _ _ _ h'
          omega
      · rw [rcdValid, if_neg hd] at h
        have := ih _ _ _ h
        omega

theorem rcdFilter_drop_small (v : List Nat) (j : Nat) :
    ∀ (ls : List Line) (m : Nat), j < m → rcdFilter (j :: v) m ls = rcdFilter v m ls := by
  intro ls
  induction ls with
  | nil => intro m _; rfl
  | cons l ls ih =>
    intro m hm
    have hiff : (m ∈ j :: v ∨ cimbDateMatch l = false) ↔ (m ∈ v ∨ cimbDateMatch l = false) := by
      constructor
      · rintro (h | h)
        · rcases List.mem_cons.mp h with h' | h'
          · omega
          · exact Or.inl h'
        · exact Or.inr h
      · rintro (h | h)
        · exact Or.inl (List.mem_cons_of_mem _ h)
        · exact Or.inr h
    rw [rcdFilter, rcdFilter]
    by_cases hc : m ∈ v ∨ cimbDateMatch l = false
    · rw [if_pos (hiff.mpr hc), if_pos hc, ih _ (by omega)]
    · rw [if_neg (fun h => hc (hiff.mp h)), if_neg hc, ih _ (by omega)]

theorem rcdValid_nil (fuel i : Nat) : rcdValid fuel i [] = [] := by
  cases fuel <;> rfl

theorem removeCloseDates_main :
    ∀ (fuel : Nat) (d : List Line), d.length ≤ fuel →
      ∀ i, rcdFilter (rcdValid fuel i d) i d = closeDatesSpec 0 d := by
  intro fuel
  induction fuel with
  | zero =>
    intro d hd i
    have : d = [] := List.length_eq_zero.mp (by omega)
    subst this; rfl
  | succ n ih =>
    intro d hd i
    match d with
    | [] => rw [rcdValid_nil]; rfl
    | l :: ls =>
      simp only [List.length_cons] at hd
      by_cases hdm : cimbDateMatch l
      · rw [rcdValid, if_pos hdm]
        rw [rcdFilter, if_pos (Or.inl (List.mem_cons_self _ _))]
        rw [closeDatesSpec, if_pos hdm]
        congr 1
        have hge : ∀ j, j ∈ rcdValid n (i + 4) (ls.drop 3) → i + 4 ≤ j :=
          fun j h => rcdValid_ge n _ _ _ h
        have hnot : ∀ k, i < k → k < i + 4 → ¬ (k ∈ i :: rcdValid n (i + 4) (ls.drop 3)) := by
          intro k hk1 hk2 hmem
          rcases List.mem_cons.mp hmem with h' | h'
          · omega
          · have := hge _ h'; omega
        match ls with
        | [] => rfl
        | [a] =>
          rw [rcdFilter]
          by_cases ha : cimbDateMatch a
          · rw [if_neg (by push_neg; exact ⟨hnot (i+1) (by omega) (by omega), by simp [ha]⟩)]
            rw [closeDatesSpec, if_pos ha]; rfl
          · rw [if_pos (Or.inr (by simpa using ha))]
            rw [closeDatesSpec, if_neg ha]; rfl
        | [a, b] =>
          rw [rcdFilter]
          have step2 : rcdFilter (i :: rcdValid n (i + 4) ([a, b].drop 3)) (i + 2) [b] =
              closeDatesSpec 2 [b] := by
            rw [rcdFilter]
            by_cases hb : cimbDateMatch b
            · rw [if_neg (by push_neg; exact ⟨hnot (i+2) (by omega) (by omega), by simp [hb]⟩)]
              rw [closeDatesSpec, if_pos hb]; rfl
            · rw [if_pos (Or.inr (by simpa using hb))]
              rw [closeDatesSpec, if_neg hb]; rfl
          by_cases ha : cimbDateMatch a
          · rw [if_neg (by push_neg; exact ⟨hnot (i+1) (by omega) (by omega), by simp [ha]⟩)]
            rw [closeDatesSpec, if_pos ha]
            exact step2
          · rw [if_pos (Or.inr (by simpa using ha))]
            rw [closeDatesSpec, if_neg ha]
            rw [step2]
        | a :: b :: c :: rest =>
          have hdrop : (a :: b :: c :: rest).drop 3 = rest := rfl
          rw [hdrop] at hnot hge ⊢
          have hrest : rcdFilter (i :: rcdValid n (i + 4) rest) (i + 4) rest =
              closeDatesSpec 0 rest := by
            rw [rcdFilter_drop_small _ _ _ _ (by omega)]
            exact ih rest (by simp only [List.length_cons] at hd; omega) (i + 4)
          have step3 : rcdFilter (i :: rcdValid n (i + 4) rest) (i + 3) (c :: rest) =
              closeDatesSpec 1 (c :: rest) := by
            rw [rcdFilter]
            by_cases hc : cimbDateMatch c
            · rw [if_neg (by push_neg; exact ⟨hnot (i+3) (by omega) (by omega), by simp [hc]⟩)]
              rw [closeDatesSpec, if_pos hc]
              exact hrest
            · rw [if_pos (Or.inr (by simpa using hc))]
              rw [closeDatesSpec, if_neg hc]
              rw [hrest]
          have step2 : rcdFilter (i :: rcdValid n (i + 4) rest) (i + 2) (b :: c :: rest) =
              closeDatesSpec 2 (b :: c :: rest) := by
            rw [rcdFilter]
            by_cases hb : cimbDateMatch b
            · rw [if_neg (by push_neg; exact ⟨hnot (i+2) (by omega) (by omega), by simp [hb]⟩)]
              rw [closeDatesSpec, if_pos hb]
              exact step3
            · rw [if_pos (Or.inr (by simpa using hb))]
              rw [closeDatesSpec, if_neg hb]
              rw [step3]
          rw [rcdFilter]
          by_cases ha : cimbDateMatch a
          · rw [if_neg (by push_neg; exact ⟨hnot (i+1) (by omega) (by omega), by simp [ha]⟩)]
            rw [closeDatesSpec, if_pos ha]
            exact step2
          · rw [if_pos (Or.inr (by simpa using ha))]
            rw [closeDatesSpec, if_neg ha]
            rw [step2]
      · rw [rcdValid, if_neg hdm]
        have hge : ∀ j, j ∈ rcdValid n (i + 1) ls → i + 1 ≤ j :=
          fun j h => rcdValid_ge n _ _ _ h
        have h1 : ¬ (i ∈ rcdValid n (i + 1) ls) := fun h => by have := hge _ h; omega
        rw [rcdFilter, if_pos (Or.inr (by simpa using hdm))]
        rw [closeDatesSpec, if_neg hdm]
        congr 1
        exact ih ls (by omega) (i + 1)

/-! ## Numbers, dates and flow classification -/

/-- Parser-level error kinds raised by the Python pipelines. -/
inductive PErr
  | noYear
  | noTrans
  | keyError
  | valueErr
  | badDate
  | indexError
deriving DecidableEq

instance {ε α : Type} [DecidableEq ε] [DecidableEq α] : DecidableEq (Except ε α) :=
  fun a b =>
    match a, b with
    | Except.ok x, Except.ok y =>
      if h : x = y then Decidable.isTrue (by rw [h])
      else Decidable.isFalse (by intro hh; cases hh; exact h rfl)
    | Except.error x, Except.error y =>
      if h : x = y then Decidable.isTrue (by rw [h])
      else Decidable.isFalse (by intro hh; cases hh; exact h rfl)
    | Except.ok _, Except.error _ => Decidable.isFalse (by intro hh; cases hh)
    | Except.error _, Except.ok _ => Decidable.isFalse (by intro hh; cases hh)

/-- Numeric value of a list of decimal digit characters. -/
def digitsVal (ds : Line) : Nat := ds.foldl (fun a c => a * 10 + (c.toNat - 48)) 0

/-- Python `float()` on strings of shape `sign? digits [. digits]`
(the only shapes reaching the conversions in this code); `none` models a
`ValueError`. -/
def parseFloat (s : Line) : Option ℚ :=
  let signRest : Bool × Line :=
    match s with
    | '-' :: r => (true, r)
    | '+' :: r => (false, r)
    | r => (false, r)
  let rest := signRest.2
  let ip := rest.takeWhile Char.isDigit
  let rest2 := rest.dropWhile Char.isDigit
  match rest2 with
  | [] =>
    if ip.isEmpty then none
    else some (mkRat (if signRest.1 then -(digitsVal ip : Int) else (digitsVal ip : Int)) 1)
  | '.' :: fr =>
    let fp := fr.takeWhile Char.isDigit
    if !(fr.dropWhile Char.isDigit).isEmpty then none
    else if ip.isEmpty && fp.isEmpty then none
    else
      let n : Int := (digitsVal ip * 10 ^ fp.length + digitsVal fp : Nat)
      some (mkRat (if signRest.1 then -n else n) (10 ^ fp.length))
  | _ => none

/-- `pd.to_numeric(s, errors="coerce")` on a string cell: `none` models NaN. -/
def toNumQ (s : Line) : Option ℚ := parseFloat (pyStrip s)

/-- A calendar date. -/
structure PDate where
  y : Nat
  m : Nat
  d : Nat
deriving DecidableEq

def isLeap (y : Nat) : Bool := y % 4 == 0 && (y % 100 != 0 || y % 400 == 0)

def daysInMonth (y m : Nat) : Nat :=
  if m == 2 then (if isLeap y then 29 else 28)
  else if m == 4 || m == 6 || m == 9 || m == 11 then 30
  else 31

def mkPDate (y m d : Nat) : Option PDate :=
  if 1 ≤ m && m ≤ 12 && 1 ≤ d && d ≤ daysInMonth y m then some ⟨y, m, d⟩ else none

/-- Numeric value of a two-digit pair. -/
def d2 (a b : Char) : Nat := (a.toNat - 48) * 10 + (b.toNat - 48)

/-- pandas two-digit-year pivot for `%y`: 00–68 ↦ 20xx, 69–99 ↦ 19xx. -/
def pivotYY (yy : Nat) : Nat := if yy ≤ 68 then 2000 + yy else 1900 + yy

/-- Strict `pd.to_datetime(s, format="%d/%m/%y")`: the whole string must be
exactly `DD/MM/YY` and denote a real calendar date. -/
def parseDateYY (l : Line) : Option PDate :=
  match l with
  | [a, b, s1, c, d, s2, e, f] =>
    if a.isDigit && b.isDigit && s1 == '/' && c.isDigit && d.isDigit && s2 == '/' &&
        e.isDigit && f.isDigit then
      mkPDate (pivotYY (d2 e f)) (d2 c d) (d2 a b)
    else none
  | _ => none

/-- `_determine_flow` (lines 48-53): classify by the trailing sign character. -/
def determineFlow (t : Line) : String :=
  match t.getLast? with
  | some '+' => "deposit"
  | some '-' => "withdrawal"
  | _ => "unknown"

/-! ## M2U year resolution (`_parse_m2u_debit`, lines 56-85) -/

/-- `re.search(r"\d{2}/\d{2}/\d{2}", …)` tested at the head of the string. -/
def date6At (l : Line) : Option Line :=
  match l with
  | a :: b :: s1 :: c :: d :: s2 :: e :: f :: _ =>
    if a.isDigit && b.isDigit && s1 == '/' && c.isDigit && d.isDigit && s2 == '/' &&
        e.isDigit && f.isDigit then
      some [a, b, s1, c, d, s2, e, f]
    else none
  | _ => none

/-- Leftmost `DD/MM/YY` match anywhere in the string (Python `re.search`). -/
def searchDate6 : Line → Option Line
  | [] => none
  | c :: t =>
    match date6At (c :: t) with
    | some m => some m
    | none => searchDate6 t

/-- The token `"STATEMENT DATE"`. -/
def stmtDateTok : Line := ("STATEMENT DATE").data

/-- Tier 1 of the year resolution, mirroring the Python loop: at the first
line containing `STATEMENT DATE`, search that line and the next four for a
`DD/MM/YY` match and take its year component; the outer loop breaks there
whether or not a date was found. -/
def m2uTier1 : List Line → Option Line
  | [] => none
  | l :: ls =>
    if containsSub stmtDateTok l then
      (((l :: ls.take 4).findSome? searchDate6).map (fun m => m.drop 6))
    else m2uTier1 ls

/-- Tier 2: first `DD/MM/YY` match anywhere in the line sequence. -/
def m2uTier2 : List Line → Option Line
  | [] => none
  | l :: ls =>
    match searchDate6 l with
    | some m => some (m.drop 6)
    | none => m2uTier2 ls

/-- `re.search(r"(\d{4})(?=\d{2})", filename)` tested at the head: a 4-digit
run immediately followed by two more digits; yields the 4-digit group. -/
def sixDigitsAt (l : Line) : Option Line :=
  match l with
  | a :: b :: c :: d :: e :: f :: _ =>
    if a.isDigit && b.isDigit && c.isDigit && d.isDigit && e.isDigit && f.isDigit then
      some [a, b, c, d]
    else none
  | _ => none

/-- Leftmost such filename match. -/
def searchSixDigits : Line → Option Line
  | [] => none
  | c :: t =>
    match sixDigitsAt (c :: t) with
    | some m => some m
    | none => searchSixDigits t

/-- The three-tier year resolution of `_parse_m2u_debit`, exactly as the
sequential Python blocks run it. -/
def m2uResolveYear (lines : List Line) (fn : Line) : Option Line :=
  match m2uTier1 lines with
  | some y => some y
  | none =>
    match m2uTier2 lines with
    | some y => some y
    | none => (searchSixDigits fn).map (fun g => g.drop 2)

/-- Specification-side tier 1, phrased with index combinators as in the
claim: the year of the first `DD/MM/YY` match in the 5-line window opened by
the first `STATEMENT DATE` line. -/
def m2uTier1Spec (lines : List Line) : Option Line :=
  (lines.findIdx? (fun l => containsSub stmtDateTok l)).bind fun i =>
    (((lines.drop i).take 5).findSome? searchDate6).map (fun m => m.drop 6)

/-- Specification-side tier 2: year of the first `DD/MM/YY` match anywhere. -/
def m2uTier2Spec (lines : List Line) : Option Line :=
  (lines.findSome? searchDate6).map (fun m => m.drop 6)

/-- Specification-side tier 3: last two digits of the first 4-digit run of
the filename that is followed by two more digits. -/
def m2uTier3Spec (fn : Line) : Option Line :=
  (searchSixDigits fn).map (fun g => g.drop 2)

/-- Specification-side year resolution: strict tier priority. -/
def m2uYearSpec (lines : List Line) (fn : Line) : Option Line :=
  ((m2uTier1Spec lines).orElse fun _ =>
    ((m2uTier2Spec lines).orElse fun _ => m2uTier3Spec fn))

theorem m2uTier1_eq_spec : ∀ lines : List Line, m2uTier1 lines = m2uTier1Spec lines := by
  intro lines
  induction lines with
  | nil => rfl
  | cons l ls ih =>
    by_cases h : containsSub stmtDateTok l = true
    · rw [m2uTier1, if_pos h]
      unfold m2uTier1Spec
      rw [List.findIdx?_cons]
      simp only [h, if_pos rfl, cond_true]
      rfl
    · rw [m2uTier1, if_neg h, ih]
      unfold m2uTier1Spec
      rw [List.findIdx?_cons]
      simp only [h]
      cases hfi : ls.findIdx? (fun l => containsSub stmtDateTok l) with
      | none => simp [hfi]
      | some i => simp [hfi, List.drop_succ_cons]

theorem m2uTier2_eq_spec : ∀ lines : List Line, m2uTier2 lines = m2uTier2Spec lines := by
  intro lines
  induction lines with
  | nil => rfl
  | cons l ls ih =>
    rw [m2uTier2]
    unfold m2uTier2Spec
    rw [List.findSome?_cons]
    cases h : searchDate6 l with
    | none => rw [ih]; rfl
    | some m => rfl

theorem m2uResolveYear_eq_spec :
    ∀ (lines : List Line) (fn : Line), m2uResolveYear lines fn = m2uYearSpec lines fn := by
  intro lines fn
  unfold m2uResolveYear m2uYearSpec
  rw [← m2uTier1_eq_spec, ← m2uTier2_eq_spec]
  cases m2uTier1 lines with
  | some y => rfl
  | none =>
    cases m2uTier2 lines with
    | some y => rfl
    | none => rfl

/-! ## M2U transaction assembly (`_parse_m2u_debit`, lines 87-169) -/

/-- `re.match(r"\d{2}/\d{2}", line)`: the assembler's anchor pattern. -/
def m2uAnchor (l : Line) : Bool :=
  match l with
  | a :: b :: s1 :: c :: d :: _ =>
    a.isDigit && b.isDigit && s1 == '/' && c.isDigit && d.isDigit
  | _ => false

/-- Greedy `(?:,\d{3})*`: consume comma-plus-three-digit groups. -/
def starCommaGroups : Line → (Line × Line)
  | ',' :: a :: b :: c :: r =>
    if a.isDigit && b.isDigit && c.isDigit then
      let g := starCommaGroups r
      (',' :: a :: b :: c :: g.1, g.2)
    else ([], ',' :: a :: b :: c :: r)
  | r => ([], r)

/-- Greedy optional `(?:\.\d{2})?`. -/
def optFrac : Line → (Line × Line)
  | '.' :: a :: b :: r =>
    if a.isDigit && b.isDigit then (['.', a, b], r) else ([], '.' :: a :: b :: r)
  | r => ([], r)

/-- Optional `[+-]?`. -/
def optSign : Line → (Line × Line)
  | '+' :: r => (['+'], r)
  | '-' :: r => (['-'], r)
  | r => ([], r)

/-- The m2u amount pattern
`\d{1,3}(?:,\d{3})*(?:\.\d{2})?[+-]? | \d+(?:\.\d{2})?[+-]?` matched at the
head of the string (both alternatives need a digit first; the first wins
whenever a digit is present, taking at most three leading digits). -/
def m2uAmountAt (l : Line) : Option Line :=
  match l with
  | c :: _ =>
    if c.isDigit then
      let ds := (l.takeWhile Char.isDigit).take 3
      let r0 := l.drop ds.length
      let g := starCommaGroups r0
      let f := optFrac g.2
      let sg := optSign f.2
      some (ds ++ g.1 ++ f.1 ++ sg.1)
    else none
  | [] => none

/-- `amount_pattern.findall(line)`'s first match (`amounts[0]`); the
`is_amount` test in the code is equivalent to this being `some`, since every
match contains a digit. -/
def m2uFirstAmount : Line → Option Line
  | [] => none
  | c :: t =>
    match m2uAmountAt (c :: t) with
    | some m => some m
    | none => m2uFirstAmount t

/-- The in-progress m2u record (`current_entry` without its description). -/
structure M2uWork where
  date : Line
  amt : Option Line
  bal : Option Line
deriving DecidableEq

/-- A sealed m2u record. -/
structure M2uRec where
  entryDate : Line
  desc : Line
  amtSlot : Option Line
  balSlot : Option Line
deriving DecidableEq

/-- Sealing: the description buffer is joined with spaces and stripped. -/
def m2uSeal (w : M2uWork) (ds : List Line) : M2uRec :=
  { entryDate := w.date, desc := pyStrip (joinWith [' '] ds),
    amtSlot := w.amt, balSlot := w.bal }

/-- The m2u assembler loop (lines 117-150).  A record is sealed — at an
anchor or at end-of-input — only when both a current entry and a non-empty
description buffer exist. -/
def m2uGo (cur : Option M2uWork) (ds : List Line) : List Line → List M2uRec
  | [] =>
    match cur with
    | some w => if ds.isEmpty then [] else [m2uSeal w ds]
    | none => []
  | l0 :: ls =>
    let l := pyStrip l0
    if m2uAnchor l then
      (match cur with
        | some w => if ds.isEmpty then [] else [m2uSeal w ds]
        | none => []) ++ m2uGo (some ⟨l, none, none⟩) [] ls
    else
      match cur with
      | none => m2uGo none ds ls
      | some w =>
        match m2uFirstAmount l with
        | some a =>
          if (l.contains '+' || l.contains '-') && w.amt.isNone then
            m2uGo (some { w with amt := some a }) ds ls
          else if w.amt.isSome && w.bal.isNone then
            m2uGo (some { w with bal := some a }) ds ls
          else
            m2uGo (some w) (ds ++ [l]) ls
        | none => m2uGo (some w) (ds ++ [l]) ls

/-- The assembler run on the filtered line sequence. -/
def m2uAssemble (lines : List Line) : List M2uRec := m2uGo none [] lines

/-- Number of anchor lines the assembler sees. -/
def m2uCountAnchors (lines : List Line) : Nat :=
  (lines.filter (fun l => m2uAnchor (pyStrip l))).length

/-- The m2u section-marker pairs, applied in order. -/
def m2uSections : List (Line × Line) :=
  [(("Malayan Banking Berhad (3813-K)").data, ("denoted by DR").data),
   (("FCN").data,
    ("PLEASE BE INFORMED TO CHECK YOUR BANK ACCOUNT BALANCES REGULARLY").data),
   (("ENTRY DATE").data, ("STATEMENT BALANCE").data),
   (("ENDING BALANCE :").data, ("TOTAL CREDIT :").data)]

/-- The m2u noise vocabulary (`strings_to_remove`, lines 92-107). -/
def m2uNoise : List Line :=
  [("URUSNIAGA AKAUN/").data, ("戶口進支項").data, ("/ACCOUNT TRANSACTIONS").data,
   ("TARIKH MASUK").data, ("TARIKH NILAI").data, ("BUTIR URUSNIAGA").data,
   ("JUMLAH URUSNIAGA").data, ("BAKI PENYATA").data, ("進支日期").data,
   ("仄過賬日期").data, ("進支項說明").data, ("银碼").data, ("結單存餘").data,
   ("BEGINNING BALANCE").data]

/-- The initial line normalization of `_parse_m2u_debit`:
`[line.strip() for line in text.split("\n") if line.strip()]`. -/
def m2uLoad (raw : List Line) : List Line :=
  raw.filterMap fun l =>
    let s := pyStrip l
    if s.isEmpty then none else some s

/-- `clean_amount` (lines 158-162): keep only digits, `.,+-`; empty → null. -/
def cleanAmount : Option Line → Option Line
  | none => none
  | some s =>
    let c := s.filter fun ch => ch.isDigit || ch == '.' || ch == ',' || ch == '+' || ch == '-'
    if c.isEmpty then none else some c

/-- `float(re.sub(r"[^\d.]", "", x))` on an optional cleaned amount;
a conversion failure is a `ValueError`. -/
def floatOfCleaned : Option Line → Except PErr (Option ℚ)
  | none => Except.ok none
  | some s =>
    match parseFloat (s.filter fun c => c.isDigit || c == '.') with
    | some q => Except.ok (some q)
    | none => Except.error PErr.valueErr

/-- A finished m2u output row. -/
structure M2uRow where
  entryDate : PDate
  desc : Line
  amount : Option ℚ
  balance : Option ℚ
  flow : Option String
deriving DecidableEq

/-- Strict date conversion for m2u (`pd.to_datetime(date + "/" + year,
format="%d/%m/%y")`, fatal on mismatch). -/
def m2uDateE (l : Line) : Except PErr PDate :=
  match parseDateYY l with
  | some d => Except.ok d
  | none => Except.error PErr.badDate

/-- Zip the per-column results back into rows (pandas assigns column-wise). -/
def m2uZip : List PDate → List Line → List (Option ℚ) → List (Option ℚ) →
    List (Option String) → List M2uRow
  | d :: ds, t :: ts, a :: as2, b :: bs, f :: fs =>
    { entryDate := d, desc := t, amount := a, balance := b, flow := f } ::
      m2uZip ds ts as2 bs fs
  | _, _, _, _, _ => []

/-- The m2u flow column (line 166): `inflow` iff the cleaned amount string
holds a `+`, `outflow` if an amount exists, null otherwise. -/
def m2uFlow (c : Option Line) : Option String :=
  match c with
  | some s => some (if s.contains '+' then "inflow" else "outflow")
  | none => none

/-- The preprocessed m2u line sequence (load, section removal, noise
filter). -/
def m2uPrep (raw : List Line) : List Line :=
  (m2uSections.foldl (fun acc p => removeSections acc p.1 p.2) (m2uLoad raw)).filter
    fun l => !(m2uNoise.any fun s => containsSub s l)

/-- The m2u column post-processing (lines 156-169): date conversion first,
then amount and balance conversion; rows with a null amount are dropped. -/
def m2uPost (recs : List M2uRec) (year : Line) : Except PErr (List M2uRow) :=
  match recs.mapM (fun r => m2uDateE (r.entryDate ++ '/' :: year)) with
  | Except.error e => Except.error e
  | Except.ok dates =>
    match (recs.map fun r => cleanAmount r.amtSlot).mapM floatOfCleaned with
    | Except.error e => Except.error e
    | Except.ok amts =>
      match (recs.map fun r => cleanAmount r.balSlot).mapM floatOfCleaned with
      | Except.error e => Except.error e
      | Except.ok bals =>
        Except.ok ((m2uZip dates (recs.map fun r => r.desc) amts bals
          ((recs.map fun r => cleanAmount r.amtSlot).map m2uFlow)).filter
            fun r => r.amount.isSome)

/-- `_parse_m2u_debit` from the extracted text lines and the filename. -/
def m2uParse (raw : List Line) (fn : Line) : Except PErr (List M2uRow) :=
  match m2uResolveYear (m2uLoad raw) fn with
  | none => Except.error PErr.noYear
  | some year =>
    if (m2uAssemble (m2uPrep raw)).isEmpty then Except.error PErr.noTrans
    else m2uPost (m2uAssemble (m2uPrep raw)) year

/-! ## Maybank debit (`_parse_maybank_debit`, lines 220-269) -/

/-- The shared noise vocabulary `COMMON_STRINGS_TO_REMOVE` (lines 8-22). -/
def commonNoise : List Line :=
  [("URUSNIAGA AKAUN/ 戶口進支項 /ACCOUNT TRANSACTIONS").data,
   ("TARIKH MASUK").data, ("BUTIR URUSNIAGA").data, ("JUMLAH URUSNIAGA").data,
   ("BAKI PENYATA").data, ("進支日期").data, ("進支項說明").data, ("银碼").data,
   ("結單存餘").data, ("URUSNIAGA AKAUN/ 戶口進支項/ACCOUNT TRANSACTIONS").data,
   ("TARIKH NILAI").data, ("仄過賬日期").data, ("戶號").data]

/-- The maybank-debit section-marker pairs (lines 223-226). -/
def mbdSections : List (Line × Line) :=
  [(("Maybank Islamic Berhad").data,
    ("Please notify us of any change of address in writing.").data),
   (("15th Floor, Tower A, Dataran Maybank, 1, Jalan Maarof, 59000 Kuala Lumpur").data,
    ("請通知本行在何地址更换。").data),
   (("ENTRY DATE").data, ("STATEMENT BALANCE").data),
   (("ENDING BALANCE :").data, ("TOTAL DEBIT :").data)]

/-- The anchor: `re.match(r"\d{2}/\d{2}/\d{2}", line)` on the raw line. -/
def mbdAnchor (l : Line) : Bool := (date6At l).isSome

/-- The in-progress maybank-debit record, modelling `temp_entry`.  A `none`
field models an absent dictionary key; `some []` models a present key whose
value is the empty string (only anchors create all four keys). -/
structure MbdWork where
  entryDate : Option Line
  desc : Option Line
  amtSlot : Option Line
  balSlot : Option Line
deriving DecidableEq

/-- The maybank-debit assembler loop (lines 233-246).  An anchor line seals
the previous `temp_entry` (if non-empty) unconditionally.  A non-anchor line
seen while `temp_entry` is the empty dict fills the `Transaction Amount`
key, creating a *phantom* record with no entry date; appending description
text to a record without the description key is a `KeyError`. -/
def mbdGo (cur : Option MbdWork) : List Line → Except PErr (List MbdWork)
  | [] =>
    Except.ok (match cur with | some w => [w] | none => [])
  | l :: ls =>
    if mbdAnchor l then
      (fun rest =>
        (match cur with | some w => [w] | none => []) ++ rest) <$>
        mbdGo (some ⟨some l, some [], some [], some []⟩) ls
    else
      match cur with
      | none => mbdGo (some ⟨none, none, some (pyStrip l), none⟩) ls
      | some w =>
        if !(w.amtSlot.getD []).isEmpty && (w.balSlot.getD []).isEmpty then
          mbdGo (some { w with balSlot := some (pyStrip l) }) ls
        else if (w.amtSlot.getD []).isEmpty then
          mbdGo (some { w with amtSlot := some (pyStrip l) }) ls
        else
          match w.desc with
          | none => Except.error PErr.keyError
          | some d => mbdGo (some { w with desc := some (d ++ pyStrip l ++ (", ").data) }) ls

/-- The assembler run on the noise-filtered lines. -/
def mbdAssemble (lines : List Line) : Except PErr (List MbdWork) := mbdGo none lines

/-- Number of anchor lines the maybank-debit assembler sees. -/
def mbdCountAnchors (lines : List Line) : Nat := (lines.filter mbdAnchor).length

/-- The pattern `\d+,\d+\.\d+` matched at the head of the string, returning
the matched text (`m` is always a prefix of the input). -/
def commaAmtAt (l : Line) : Option Line :=
  match l with
  | c :: _ =>
    if c.isDigit then
      let d1 := l.takeWhile Char.isDigit
      let r1 := l.drop d1.length
      match r1 with
      | ',' :: r2 =>
        let dl2 := r2.takeWhile Char.isDigit
        if dl2.isEmpty then none
        else
          match r2.drop dl2.length with
          | '.' :: r4 =>
            let dl3 := r4.takeWhile Char.isDigit
            if dl3.isEmpty then none
            else some (d1 ++ ',' :: dl2 ++ '.' :: dl3)
          | _ => none
      | _ => none
    else none
  | [] => none

/-- Leftmost `\d+,\d+\.\d+` match (`str.extract`). -/
def searchCommaAmt : Line → Option Line
  | [] => none
  | c :: t =>
    match commaAmtAt (c :: t) with
    | some m => some m
    | none => searchCommaAmt t

/-- `str.replace(r"\d+,\d+\.\d+, ", "", regex=True)`: delete every such
match (the amount followed by a literal comma-space), scanning left to
right. -/
def mbdSubBal2F : Nat → Line → Line
  | 0, l => l
  | _ + 1, [] => []
  | fuel + 1, c :: t =>
    match commaAmtAt (c :: t) with
    | some m =>
      match (c :: t).drop m.length with
      | ',' :: ' ' :: r2 => mbdSubBal2F fuel r2
      | _ => c :: mbdSubBal2F fuel t
    | none => c :: mbdSubBal2F fuel t

def mbdSubBal2 (l : Line) : Line := mbdSubBal2F (l.length + 1) l

/-- Does the string, from this position on, match
`, (\d{1,3}(?:,\d{3})*(?:\.\d{2}))$` — i.e. comma, space, a grouped amount
with a mandatory two-decimal fraction, then end of string? -/
def mbdEndAmtHere (l : Line) : Bool :=
  match l with
  | ',' :: ' ' :: r =>
    match r with
    | c :: _ =>
      if c.isDigit then
        let ds := (r.takeWhile Char.isDigit).take 3
        let r1 := r.drop ds.length
        let g := starCommaGroups r1
        match g.2 with
        | '.' :: a :: b :: rest => a.isDigit && b.isDigit && rest.isEmpty
        | _ => false
      else false
    | [] => false
  | _ => false

/-- `str.replace(r", (\d{1,3}(?:,\d{3})*(?:\.\d{2}))$", "", regex=True)`:
remove a trailing comma-space-amount suffix. -/
def mbdStripEndAmt : Line → Line
  | [] => []
  | c :: t => if mbdEndAmtHere (c :: t) then [] else c :: mbdStripEndAmt t

/-- The transaction-type based description overrides (lines 263-265). -/
def mbdOverrideDesc (tt desc : Line) : Line :=
  if tt = ("CASH WITHDRAWAL").data then ("CASH WITHDRAWAL").data
  else if tt = ("DEBIT ADVICE").data then ("Card Annual Fee").data
  else if tt = ("PROFIT PAID").data then ("PROFIT PAID").data
  else desc

/-- A finished maybank-debit output row (after the column renames: the first
captured slot is the transaction type, the second captured slot is the
transaction amount, and the statement balance is re-extracted from the
description). -/
structure MbdRow where
  entryDate : PDate
  txnType : Line
  desc : Line
  amount : ℚ
  balance2 : Option ℚ
  flow : String
deriving DecidableEq

def mbdZip : List PDate → List Line → List Line → List ℚ → List (Option ℚ) →
    List String → List MbdRow
  | d :: ds, t :: ts, de :: des, a :: as2, b :: bs, f :: fs =>
    { entryDate := d, txnType := t, desc := de, amount := a, balance2 := b, flow := f } ::
      mbdZip ds ts des as2 bs fs
  | _, _, _, _, _, _ => []

/-- The preprocessed maybank-debit line sequence (section removal and noise
filter). -/
def mbdPrep (raw : List Line) : List Line :=
  (mbdSections.foldl (fun acc p => removeSections acc p.1 p.2) raw).filter
    fun l => !(commonNoise.any fun s => containsSub s l)

/-- The per-record `rstrip` pass over the descriptions (lines 248-249); a
missing description key is a `KeyError`. -/
def mbdRstrip (w : MbdWork) : Except PErr MbdWork :=
  match w.desc with
  | some d => Except.ok { w with desc := some (pyRstrip [',', ' '] d) }
  | none => Except.error PErr.keyError

/-- The date column conversion (line 255); a record without the entry-date
key models the missing-column `KeyError`. -/
def mbdDateE (w : MbdWork) : Except PErr PDate :=
  match w.entryDate with
  | some l =>
    (match parseDateYY l with
      | some dt => Except.ok dt
      | none => Except.error PErr.badDate)
  | none => Except.error PErr.keyError

/-- The amount conversion (lines 267-268): strip sign characters and commas
and convert; failure is a `ValueError`. -/
def mbdAmtE (s : Line) : Except PErr ℚ :=
  match parseFloat (s.filter fun c => c != '+' && c != '-' && c != ',') with
  | some q => Except.ok q
  | none => Except.error PErr.valueErr

/-- The maybank-debit column post-processing (lines 251-269). -/
def mbdPost (recs2 : List MbdWork) : Except PErr (List MbdRow) :=
  match recs2.mapM mbdDateE with
  | Except.error e => Except.error e
  | Except.ok dates =>
    match (recs2.map fun w => w.balSlot.getD []).mapM mbdAmtE with
    | Except.error e => Except.error e
    | Except.ok amts =>
      Except.ok (mbdZip dates (recs2.map fun w => w.amtSlot.getD [])
        (List.zipWith mbdOverrideDesc (recs2.map fun w => w.amtSlot.getD [])
          ((recs2.map fun w => w.desc.getD []).map fun d => mbdStripEndAmt (mbdSubBal2 d)))
        amts
        ((recs2.map fun w => w.desc.getD []).map fun d =>
          (searchCommaAmt d).bind fun m => parseFloat (m.filter fun c => c != ','))
        ((recs2.map fun w => w.balSlot.getD []).map determineFlow))

/-- `_parse_maybank_debit` from the extracted text lines. -/
def mbdParse (raw : List Line) : Except PErr (List MbdRow) :=
  match mbdAssemble (mbdPrep raw) with
  | Except.error e => Except.error e
  | Except.ok recs =>
    match recs.mapM mbdRstrip with
    | Except.error e => Except.error e
    | Except.ok recs2 =>
      if recs2.isEmpty then Except.error PErr.noTrans
      else mbdPost recs2

/-! ## Maybank credit (`_parse_maybank_credit`, lines 172-217) -/

/-- The credit-card anchor test: `"/" in line and len(line) == 5`. -/
def credAnchor (l : Line) : Bool := l.length == 5 && l.contains '/'

/-- `re.match(r"^(\d{1,3}(?:,\d{3})*(\.\d{2})?)(CR)?$", s, re.IGNORECASE)`:
full-string amount with optional case-insensitive `CR` suffix, which negates
the amount (line 197-201). -/
def credAmtMatch (l : Line) : Option Line :=
  match l with
  | c :: _ =>
    if c.isDigit then
      let ds := (l.takeWhile Char.isDigit).take 3
      let r0 := l.drop ds.length
      let g := starCommaGroups r0
      let f := optFrac g.2
      let num := ds ++ g.1 ++ f.1
      match f.2 with
      | [] => some num
      | [x, y] =>
        if (x == 'C' || x == 'c') && (y == 'R' || y == 'r') then some ('-' :: num)
        else none
      | _ => none
    else none
  | [] => none

/-- The inner collection loop (lines 193-205): gather description lines
until an anchor or an amount line; returns `(descs, amount, rest)`. -/
def credInner : List Line → (List Line × Line × List Line)
  | [] => ([], [], [])
  | l :: ls =>
    if credAnchor l then ([], [], l :: ls)
    else
      match credAmtMatch (pyStrip l) with
      | some a => ([], a, ls)
      | none =>
        let r := credInner ls
        (pyStrip l :: r.1, r.2.1, r.2.2)

theorem credInner_rest_le : ∀ ls : List Line, (credInner ls).2.2.length ≤ ls.length := by
  intro ls
  induction ls with
  | nil => simp [credInner]
  | cons l ls ih =>
    rw [credInner]
    by_cases h : credAnchor l = true
    · simp [h]
    · rw [if_neg h]
      cases hm : credAmtMatch (pyStrip l) <;> simp [hm] <;> omega

/-- A raw maybank-credit record. -/
structure CredRecRaw where
  posting : Line
  txn : Line
  descs : List Line
  amount : Line
deriving DecidableEq

/-- The outer pairing loop (lines 186-209): two adjacent 5-character
slash-bearing lines open a record.  The fuel bounds the iterations (input
length plus one suffices). -/
def credLoopF : Nat → List Line → List CredRecRaw
  | 0, _ => []
  | _ + 1, [] => []
  | _ + 1, [_] => []
  | fuel + 1, l1 :: l2 :: rest =>
    if credAnchor l1 && credAnchor l2 then
      { posting := l2, txn := l1, descs := (credInner rest).1,
        amount := (credInner rest).2.1 } :: credLoopF fuel (credInner rest).2.2
    else credLoopF fuel (l2 :: rest)

def credLoop (data : List Line) : List CredRecRaw := credLoopF (data.length + 1) data

/-- Python `re.findall(r"\d{4}", s)`: all non-overlapping 4-digit runs. -/
def findAll4DigitsF : Nat → Line → List Line
  | 0, _ => []
  | fuel + 1, a :: b :: c :: d :: rest =>
    if a.isDigit && b.isDigit && c.isDigit && d.isDigit then
      [a, b, c, d] :: findAll4DigitsF fuel rest
    else findAll4DigitsF fuel (b :: c :: d :: rest)
  | _ + 1, _ => []

def findAll4Digits (l : Line) : List Line := findAll4DigitsF (l.length + 1) l

/-- Year resolution for the credit format (lines 174-180): first 4-digit
filename run in the open interval (2010, 2050), else the current year. -/
def credYear (fn : Line) (nowYear : Nat) : Nat :=
  match (findAll4Digits fn).find? (fun g => decide (2010 < digitsVal g && digitsVal g < 2050)) with
  | some g => digitsVal g
  | none => nowYear

/-- `Series.replace("", None)` on a string column: empty cells are
forward-filled from the most recent non-empty value (pandas `method="pad"`
semantics for a scalar `to_replace` with `value=None`); a leading empty cell
becomes null. -/
def padEmpty (last : Option Line) : List Line → List (Option Line)
  | [] => []
  | s :: ss =>
    if s.isEmpty then last :: padEmpty last ss
    else some s :: padEmpty (some s) ss

/-- A finished maybank-credit output row. -/
structure CredRow where
  year : Nat
  posting : Line
  txn : Line
  desc : Line
  amount : Option ℚ
deriving DecidableEq

def credZip (y : Nat) : List CredRecRaw → List (Option ℚ) → List CredRow
  | r :: rs, a :: as2 =>
    { year := y, posting := r.posting, txn := r.txn,
      desc := joinWith (", ").data r.descs, amount := a } :: credZip y rs as2
  | _, _ => []

/-- `_parse_maybank_credit` from the extracted text lines, the filename and
the current year (the clock is an explicit parameter). -/
def credParse (raw : List Line) (fn : Line) (nowYear : Nat) : Except PErr (List CredRow) :=
  let year := credYear fn nowYear
  let data := raw.filter fun l => !(commonNoise.any fun s => containsSub s l)
  let recs := credLoop data
  if recs.isEmpty then Except.error PErr.noTrans
  else do
    let padded := padEmpty none (recs.map fun r => r.amount.filter fun c => c != ',')
    let amts ← padded.mapM fun o =>
      match o with
      | none => Except.ok (none : Option ℚ)
      | some s =>
        match parseFloat s with
        | some q => Except.ok (some q)
        | none => Except.error PErr.valueErr
    Except.ok (credZip year recs amts)

/-! ## CIMB debit (`_parse_cimb_debit`, lines 284-356) -/

/-- `_is_pure_number` (lines 284-286). -/
def isPureNumber (s : Line) : Bool :=
  let s2 := s.filter fun c => c != ' '
  !s2.isEmpty && s2.all Char.isDigit

/-- `re.match(r"^-?\d", s)`. -/
def cimbStartsNum (l : Line) : Bool :=
  match l with
  | '-' :: c :: _ => c.isDigit
  | c :: _ => c.isDigit
  | [] => false

/-- The description-collecting while loop (lines 318-321): advance past
lines that neither start a date nor start with an (optionally negated)
digit, accumulating the non-blank stripped ones. -/
def cimbCollectDesc : List Line → (List Line × List Line)
  | [] => ([], [])
  | l :: ls =>
    if cimbDateMatch l || cimbStartsNum (pyStrip l) then ([], l :: ls)
    else
      let r := cimbCollectDesc ls
      ((if (pyStrip l).isEmpty then r.1 else pyStrip l :: r.1), r.2)

theorem cimbCollectDesc_rest_le : ∀ ls : List Line, (cimbCollectDesc ls).2.length ≤ ls.length := by
  intro ls
  induction ls with
  | nil => simp [cimbCollectDesc]
  | cons l ls ih =>
    rw [cimbCollectDesc]
    by_cases h : (cimbDateMatch l || cimbStartsNum (pyStrip l)) = true
    · simp [h]
    · rw [if_neg h]
      simp only [List.length_cons]
      omega

/-- An assembled CIMB record (`transaction` dict; `amount = none` models the
absent `"Amount"` key). -/
structure CimbRec where
  date : Line
  desc : Line
  amount : Option Line
  balance : Line
  payee : Line
deriving DecidableEq

/-- The post-description amount test (lines 324-326): if the next line's
stripped form starts with `-?\d` (a subsequent date line also qualifies), it
is consumed as the amount. -/
def cimbAmtSplit (ls : List Line) : Option Line × List Line :=
  match ls with
  | a :: r => if cimbStartsNum (pyStrip a) then (some (pyStrip a), r) else (none, a :: r)
  | [] => (none, [])

theorem cimbAmtSplit_le (ls : List Line) : (cimbAmtSplit ls).2.length ≤ ls.length := by
  match ls with
  | [] => simp [cimbAmtSplit]
  | a :: r =>
    rw [cimbAmtSplit]
    by_cases hs : cimbStartsNum (pyStrip a) = true <;> simp [hs]

/-- Everything after a date anchor: the description lines, the optional
amount, and the remaining suffix positioned at the first non-blank line
(lines 317-331); the balance line is *not* consumed. -/
def cimbAfterDate (ls : List Line) : List Line × Option Line × List Line :=
  ((cimbCollectDesc ls).1, (cimbAmtSplit (cimbCollectDesc ls).2).1,
    (cimbAmtSplit (cimbCollectDesc ls).2).2.dropWhile fun x => (pyStrip x).isEmpty)

theorem cimbAfterDate_le (ls : List Line) : (cimbAfterDate ls).2.2.length ≤ ls.length := by
  have h1 := cimbCollectDesc_rest_le ls
  have h2 := cimbAmtSplit_le (cimbCollectDesc ls).2
  have h3 := lengthDropWhileLe (fun x : Line => (pyStrip x).isEmpty)
    (cimbAmtSplit (cimbCollectDesc ls).2).2
  simp only [cimbAfterDate]
  omega

/-- A record opened by a date anchor. -/
def cimbMkRec (l : Line) (ad : List Line × Option Line × List Line) : CimbRec :=
  { date := l, desc := joinWith (", ").data ad.1, amount := ad.2.1,
    balance := match ad.2.2 with | b :: _ => pyStrip b | [] => [],
    payee := match ad.1 with | p :: _ => p | [] => ("-").data }

/-- The main CIMB while loop (lines 299-338).  `OPENING BALANCE` consumes
the following line as the amount (an `IndexError` if there is none).  A date
line collects descriptions, then an optional amount line, then records the
next non-blank line as the balance *without consuming it*. -/
def cimbLoopF : Nat → List Line → Except PErr (List CimbRec)
  | 0, _ => Except.ok []
  | _ + 1, [] => Except.ok []
  | fuel + 1, l :: ls =>
    if l = ("OPENING BALANCE").data then
      match ls with
      | [] => Except.error PErr.indexError
      | amt :: rest =>
        (fun rs =>
          { date := ("-").data, desc := ("Opening Balance").data,
            amount := some (pyStrip amt), balance := ("-").data,
            payee := ("-").data } :: rs) <$> cimbLoopF fuel rest
    else if cimbDateMatch l then
      (fun rs => cimbMkRec l (cimbAfterDate ls) :: rs) <$> cimbLoopF fuel (cimbAfterDate ls).2.2
    else cimbLoopF fuel ls

def cimbLoop (data : List Line) : Except PErr (List CimbRec) :=
  cimbLoopF (data.length + 1) data

/-- The balance-comparison flow classification (lines 348-351) for one
adjacent pair: coerced-numeric comparison, `deposit` only on a strict
increase, otherwise `withdrawal` (including NaN comparisons). -/
def cimbFlowOf (prev curr : Line) : String :=
  match toNumQ curr, toNumQ prev with
  | some c, some p => if p < c then "deposit" else "withdrawal"
  | _, _ => "withdrawal"

/-- The `output` column produced by the flow loop: the first row never gets
a value; each later row compares its balance with the previous row's. -/
def cimbFlows (bals : List Line) : List (Option String) :=
  match bals with
  | [] => []
  | b0 :: rest =>
    none :: List.zipWith (fun curr prev => some (cimbFlowOf prev curr)) rest (b0 :: rest)

/-- `" ".join(x.split()[1:])` (line 344). -/
def tailWords (s : Line) : Line := joinWith [' '] (pySplit s).tail

/-- `(\S+)\s(.*)` via `str.extract` (line 355): first whitespace-delimited
token and everything after the single separator character. -/
def extractDT : Line → Option (Line × Line)
  | [] => none
  | c :: t =>
    if c.isWhitespace then extractDT t
    else
      let run := (c :: t).takeWhile fun d => !d.isWhitespace
      match (c :: t).drop run.length with
      | w :: rest => if w.isWhitespace then some (run, rest) else extractDT t
      | [] => none

/-- A finished CIMB output row. -/
structure CimbRow where
  date : Option Line
  txnType : Option Line
  desc : Line
  desc2 : Line
  amount : Option Line
  balance : Line
  flow : Option String
deriving DecidableEq

def cimbMkRow (r : CimbRec) (f : Option String) : CimbRow :=
  let d2 := tailWords r.desc
  let full := d2 ++ (", ").data ++ r.payee
  { date := (extractDT r.date).map (fun p => p.1),
    txnType := (extractDT r.date).map (fun p => p.2),
    desc := if full = ("Balance, -").data then ("Opening Balance").data else full,
    desc2 := if d2 = ("Balance").data then ("Opening Balance").data else d2,
    amount := r.amount, balance := r.balance, flow := f }

def cimbZip : List CimbRec → List (Option String) → List CimbRow
  | r :: rs, f :: fs => cimbMkRow r f :: cimbZip rs fs
  | _, _ => []

/-- The preprocessed CIMB line sequence: section removal, noise filter,
close-dates filter, pure-number filter, merchant normalization. -/
def cimbPrep (raw : List Line) : List Line :=
  ((removeCloseDates
    ((removeSections raw (("Page / Halaman").data) (("ISLAMIC BBB-PPPP").data)).filter
      fun l => !(commonNoise.any fun s => containsSub s l))).filter
        fun l => !isPureNumber l).map
    fun l => if l = ("99 SPEEDMART-2133").data then ("ninetynine speed mart").data else l

/-- `_parse_cimb_debit` from the extracted text lines.  A frame in which no
record carries the `Amount` key, or with a single record (so the flow loop
never created the `output` column), fails the final column selection with a
`KeyError`. -/
def cimbParse (raw : List Line) : Except PErr (List CimbRow) :=
  match cimbLoop (cimbPrep raw) with
  | Except.error e => Except.error e
  | Except.ok recs =>
    if recs.isEmpty then Except.error PErr.noTrans
    else if recs.all (fun r => r.amount.isNone) then Except.error PErr.keyError
    else if recs.length == 1 then Except.error PErr.keyError
    else Except.ok (cimbZip recs (cimbFlows (recs.map fun r => r.balance)))

/-! ## RHB Flex (`_parse_rhb_flex`, lines 359-483) -/

/-- The anchor `re.match(r"(\d{2}-\d{2}-\d{4}|\d{2}-\d{2}-\d{2})", line)` on
the stripped line; returns `group(1)` (the four-digit-year alternative is
tried first). -/
def rhbDateAt (l : Line) : Option Line :=
  match l with
  | a :: b :: s1 :: c :: d :: s2 :: e :: f :: rest =>
    if a.isDigit && b.isDigit && s1 == '-' && c.isDigit && d.isDigit && s2 == '-' &&
        e.isDigit && f.isDigit then
      match rest with
      | g :: h :: _ =>
        if g.isDigit && h.isDigit then some [a, b, s1, c, d, s2, e, f, g, h]
        else some [a, b, s1, c, d, s2, e, f]
      | _ => some [a, b, s1, c, d, s2, e, f]
    else none
  | _ => none

/-- A grouped RHB transaction: the anchor's date text plus the stripped
lines up to the next anchor. -/
structure RTxn where
  date : Line
  lines : List Line
deriving DecidableEq

/-- The grouping loop (lines 364-375): an anchor seals the previous group
unconditionally; the final group is sealed at end-of-input. -/
def rhbGo (cur : Option RTxn) : List Line → List RTxn
  | [] => match cur with | some t => [t] | none => []
  | l0 :: ls =>
    match rhbDateAt (pyStrip l0) with
    | some dm =>
      (match cur with | some t => [t] | none => []) ++ rhbGo (some ⟨dm, []⟩) ls
    | none =>
      match cur with
      | some t => rhbGo (some ⟨t.date, t.lines ++ [pyStrip l0]⟩) ls
      | none => rhbGo none ls

/-- Number of anchor lines the RHB grouping sees. -/
def rhbCountAnchors (lines : List Line) : Nat :=
  (lines.filter fun l => (rhbDateAt (pyStrip l)).isSome).length

/-- `([\d,]+\.\d{2})\s*(DR|CR|\+|\-)?$` tested at this position: the match
must reach the end of the string; returns the amount group and the optional
suffix group. -/
def rhbAmtTailAt (l : Line) : Option (Line × Option Line) :=
  match l with
  | c :: _ =>
    if c.isDigit || c == ',' then
      let run := l.takeWhile fun d => d.isDigit || d == ','
      match l.drop run.length with
      | '.' :: a :: b :: r =>
        if a.isDigit && b.isDigit then
          match r.dropWhile Char.isWhitespace with
          | [] => some (run ++ ['.', a, b], none)
          | ['D', 'R'] => some (run ++ ['.', a, b], some (("DR").data))
          | ['C', 'R'] => some (run ++ ['.', a, b], some (("CR").data))
          | ['+'] => some (run ++ ['.', a, b], some (("+").data))
          | ['-'] => some (run ++ ['.', a, b], some (("-").data))
          | _ => none
        else none
      | _ => none
    else none
  | [] => none

/-- Leftmost such match (`re.search`); returns the text before the match and
the two groups. -/
def rhbFindAmtTail : Line → Option (Line × Line × Option Line)
  | [] => none
  | c :: t =>
    match rhbAmtTailAt (c :: t) with
    | some (g, sg) => some ([], g, sg)
    | none => (rhbFindAmtTail t).map fun r => (c :: r.1, r.2.1, r.2.2)

/-- The fixed transaction-type vocabulary (lines 378-393), in source order. -/
def rhbTypes : List Line :=
  [("DUITNOW QR POS CR").data, ("INWARD IBG").data, ("RFLX").data, ("DUITNOW").data,
   ("RPP INWARD INST TRF").data, ("LOCAL CHQ").data, ("REFLEX-FUNDS TFR DR").data,
   ("MB FUND").data, ("CASH DEPOSIT").data, ("RPP INWARD").data,
   ("REFLEX-FUNDS TFR").data, ("REFLEX- FUNDS TFR DR").data,
   ("RFLX INSTANT TRF DR").data, ("RFLX INSTANT TRF SC").data]

/-- Python `str.replace(needle, "")` for a non-empty needle: delete every
occurrence, left to right (fuelled). -/
def replaceAllSubNe (n0 : Char) (nt : Line) : Nat → Line → Line
  | 0, l => l
  | _ + 1, [] => []
  | fuel + 1, c :: t =>
    if (n0 :: nt).isPrefixOf (c :: t) then
      replaceAllSubNe n0 nt fuel ((c :: t).drop (n0 :: nt).length)
    else c :: replaceAllSubNe n0 nt fuel t

/-- Python `str.replace(needle, "")`. -/
def replaceAllSub (needle : Line) (l : Line) : Line :=
  match needle with
  | [] => l
  | n0 :: nt => replaceAllSubNe n0 nt (l.length + 1) l

/-- The first substring match from the type vocabulary becomes the
description and is deleted from the working text (lines 411-415). -/
def rhbExtractType (ct : Line) : Line × Line :=
  match rhbTypes.find? (fun t => containsSub t ct) with
  | some t => (t, pyStrip (replaceAllSub t ct))
  | none => ([], ct)

/-- `^([\d,]+\.\d{2}\+)\s*(.*)` at the head of the string (line 439):
a leading balance artifact ending in `+`, then the remaining text. -/
def psbLeadBal (s : Line) : Option (Line × Line) :=
  match s with
  | c :: _ =>
    if c.isDigit || c == ',' then
      let run := s.takeWhile fun d => d.isDigit || d == ','
      match s.drop run.length with
      | '.' :: a :: b :: '+' :: r =>
        if a.isDigit && b.isDigit then
          some (run ++ ['.', a, b, '+'], r.dropWhile Char.isWhitespace)
        else none
      | _ => none
    else none
  | [] => none

/-- The token-level reference cleaning (lines 449-458): drop tokens of
length ≥ 8 containing both a letter and a digit, exactly-3-digit tokens, and
all-digit tokens of length ≥ 8. -/
def psbTokenKeep (tok : Line) : Bool :=
  !(decide (8 ≤ tok.length) && tok.any Char.isAlpha && tok.any Char.isDigit) &&
  !(tok.length == 3 && tok.all Char.isDigit) &&
  !(decide (8 ≤ tok.length) && tok.all Char.isDigit)

/-- One `re.sub` pass with empty replacement: scan left to right, deleting
each match and resuming after it; `matchAt` yields the rest of the string
after a match at the current position.  The fuel is the string length. -/
def subP (matchAt : Line → Option Line) : Nat → Line → Line
  | 0, l => l
  | _ + 1, [] => []
  | fuel + 1, c :: t =>
    match matchAt (c :: t) with
    | some r => subP matchAt fuel r
    | none => c :: subP matchAt fuel t

def subPattern (matchAt : Line → Option Line) (l : Line) : Line :=
  subP matchAt (l.length + 1) l

/-- Case-insensitive (ASCII) prefix test, for `re.IGNORECASE` literals. -/
def isPrefixCi : Line → Line → Bool
  | [], _ => true
  | _ :: _, [] => false
  | a :: as2, b :: bs => (a.toLower == b.toLower) && isPrefixCi as2 bs

/-- A literal-then-`.*` pattern: on a match everything to the end of the
string is consumed. -/
def litCiDotStarAt (lit : Line) (l : Line) : Option Line :=
  if isPrefixCi lit l then some [] else none

/-- `06/\s*\d+\s*/\s*-\s*` at this position. -/
def rhbPat1At (l : Line) : Option Line :=
  match l with
  | '0' :: '6' :: '/' :: r =>
    let r1 := r.dropWhile Char.isWhitespace
    let ds := r1.takeWhile Char.isDigit
    if ds.isEmpty then none
    else
      match (r1.drop ds.length).dropWhile Char.isWhitespace with
      | '/' :: r3 =>
        match r3.dropWhile Char.isWhitespace with
        | '-' :: r5 => some (r5.dropWhile Char.isWhitespace)
        | _ => none
      | _ => none
  | _ => none

/-- `/\s*\d{3,}\s*/\s*-\s*` at this position. -/
def rhbPat2At (l : Line) : Option Line :=
  match l with
  | '/' :: r =>
    let r1 := r.dropWhile Char.isWhitespace
    let ds := r1.takeWhile Char.isDigit
    if decide (3 ≤ ds.length) then
      match (r1.drop ds.length).dropWhile Char.isWhitespace with
      | '/' :: r3 =>
        match r3.dropWhile Char.isWhitespace with
        | '-' :: r5 => some (r5.dropWhile Char.isWhitespace)
        | _ => none
      | _ => none
    else none
  | _ => none

/-- The boilerplate literals of `unwanted_patterns` (lines 460-473), each
used as a case-insensitive literal followed by `.*`. -/
def rhbUnwantedLits : List Line :=
  [("www.rhbgroup.com").data,
   ("For Any Enquiries").data,
   ("Date Branch Description").data,
   ("Reference 1 / Recipient").data ++ [aposChar] ++ ("s Reference").data,
   ("Reference 2 / Other Payment Details").data,
   ("RefNum").data,
   ("Amount (DR)").data,
   ("Amount (CR)").data,
   ("Balance Sender").data ++ [aposChar] ++ ("s / Beneficiary").data ++ [aposChar] ++
     ("s Name").data,
   ("Sender").data ++ [aposChar] ++ ("s / Beneficiary").data ++ [aposChar] ++ ("s Name").data]

/-- Apply all twelve unwanted-pattern substitutions in source order. -/
def rhbApplyUnwanted (s : Line) : Line :=
  let s1 := subPattern rhbPat1At s
  let s2 := subPattern rhbPat2At s1
  rhbUnwantedLits.foldl (fun acc lit => subPattern (litCiDotStarAt lit) acc) s2

/-- `process_sender_beneficiary` (lines 434-477): returns
`(balance, sender/beneficiary, recipient reference)`. -/
def processSB (s0 : Line) : Line × Line × Line :=
  let s := pyStrip s0
  match psbLeadBal s with
  | none => ([], s, [])
  | some (bal, rem) =>
    let ws := pySplit rem
    let sender := joinWith [' '] (ws.take 3)
    let ref0 := joinWith [' '] (ws.drop 3)
    let ref1 := joinWith [' '] ((pySplit ref0).filter psbTokenKeep)
    let ref2 := rhbApplyUnwanted ref1
    (bal, sender, joinWith [' '] (pySplit ref2))

/-- Strict `%d-%m-%Y` full-string parse. -/
def parseDashDate10 (l : Line) : Option PDate :=
  match l with
  | [a, b, s1, c, d, s2, e, f, g, h] =>
    if a.isDigit && b.isDigit && s1 == '-' && c.isDigit && d.isDigit && s2 == '-' &&
        e.isDigit && f.isDigit && g.isDigit && h.isDigit then
      mkPDate (digitsVal [e, f, g, h]) (d2 c d) (d2 a b)
    else none
  | _ => none

/-- Strict `%d-%m-%y` full-string parse (pandas two-digit-year pivot). -/
def parseDashDate8 (l : Line) : Option PDate :=
  match l with
  | [a, b, s1, c, d, s2, e, f] =>
    if a.isDigit && b.isDigit && s1 == '-' && c.isDigit && d.isDigit && s2 == '-' &&
        e.isDigit && f.isDigit then
      mkPDate (pivotYY (d2 e f)) (d2 c d) (d2 a b)
    else none
  | _ => none

/-- Two-digit zero-padded rendering. -/
def twoDigits (n : Nat) : Line := [Char.ofNat (48 + n / 10 % 10), Char.ofNat (48 + n % 10)]

/-- The date post-processing (lines 431-432): coerce with `%d-%m-%Y`, fill
failures with `%d-%m-%y`, then format as `%d-%m-%y`; unparseable dates end
as null. -/
def rhbDateFmt (d : Line) : Option Line :=
  match parseDashDate10 d with
  | some p => some (twoDigits p.d ++ '-' :: twoDigits p.m ++ '-' :: twoDigits (p.y % 100))
  | none =>
    match parseDashDate8 d with
    | some p => some (twoDigits p.d ++ '-' :: twoDigits p.m ++ '-' :: twoDigits (p.y % 100))
    | none => none

/-- The per-transaction computation of `_parse_rhb_flex`: everything that is
derived from one transaction's own trailing text, before the one-row shift. -/
structure RComp where
  date : Line
  desc : Line
  sender : Line
  dr : Line
  cr : Line
  balance : Line
  ref : Line
deriving DecidableEq

def rhbCompute (t : RTxn) : RComp :=
  let combined0 := pyStrip (joinWith [' '] t.lines)
  let amtRes : Line × Option (Line × Option Line) :=
    match rhbFindAmtTail combined0 with
    | some (before, g, sg) => (pyStrip before, some (g.filter (fun c => c != ','), sg))
    | none => (combined0, none)
  let dr : Line :=
    match amtRes.2 with
    | some (a, some sg) => if sg = ("DR").data || sg = ("-").data then a else []
    | _ => []
  let cr : Line :=
    match amtRes.2 with
    | some (a, sg) =>
      match sg with
      | some s => if s = ("CR").data || s = ("+").data then a else []
      | none => a
    | none => []
  let td := rhbExtractType amtRes.1
  let psb := processSB td.2
  { date := t.date, desc := td.1, sender := psb.2.1, dr := dr, cr := cr,
    balance := psb.1, ref := psb.2.2 }

/-- A finished RHB output row (after the shift: `dr`, `cr` and `ref` come
from the previous transaction; `none` models the NaN of a shifted first
row). -/
structure RRow where
  date : Option Line
  desc : Line
  sender : Line
  dr : Option Line
  cr : Option Line
  balance : Line
  ref : Option Line
deriving DecidableEq

def rhbMkRow (c : RComp) (prev : Option RComp) : RRow :=
  { date := rhbDateFmt c.date, desc := c.desc, sender := c.sender,
    dr := prev.map (fun p => p.dr), cr := prev.map (fun p => p.cr),
    balance := c.balance, ref := prev.map (fun p => p.ref) }

/-- `shift(1)` applied to the three shifted columns while zipping rows. -/
def rhbEmit (comp : List RComp) : List RRow :=
  match comp with
  | [] => []
  | c0 :: rest => rhbMkRow c0 none :: List.zipWith (fun cur prev => rhbMkRow cur (some prev)) rest comp

/-- `_parse_rhb_flex` from the extracted text lines. -/
def rhbParse (raw : List Line) : Except PErr (List RRow) :=
  let ts := rhbGo none raw
  if ts.isEmpty then Except.error PErr.noTrans
  else Except.ok (rhbEmit (ts.map rhbCompute))

/-! ## Utility lemmas -/

theorem dropWhile_self {α : Type} (p : α → Bool) :
    ∀ x : List α, (x.dropWhile p).dropWhile p = x.dropWhile p := by
  intro x
  induction x with
  | nil => rfl
  | cons c t ih =>
    rw [List.dropWhile]
    cases h : p c
    · simp only [List.dropWhile, h]
    · simpa using ih

theorem head?_dropWhile_false {α : Type} (p : α → Bool) :
    ∀ (x : List α) (a : α), (x.dropWhile p).head? = some a → p a = false := by
  intro x
  induction x with
  | nil => intro a h; simp [List.dropWhile] at h
  | cons c t ih =>
    intro a h
    rw [List.dropWhile] at h
    cases hc : p c
    · rw [hc] at h
      simp only [List.head?] at h
      cases h
      exact hc
    · rw [hc] at h
      exact ih a h

theorem getLast?_dropWhile {α : Type} (p : α → Bool) :
    ∀ x : List α, x.dropWhile p ≠ [] → (x.dropWhile p).getLast? = x.getLast? := by
  intro x
  induction x with
  | nil => intro h; simp [List.dropWhile] at h
  | cons c t ih =>
    intro h
    rw [List.dropWhile]
    cases hc : p c
    · rfl
    · rw [List.dropWhile, hc] at h
      have ht : t ≠ [] := by
        intro he
        rw [he] at h
        simp [List.dropWhile] at h
      rw [ih h]
      cases t with
      | nil => exact absurd rfl ht
      | cons x xs => simp [List.getLast?_cons_cons]

theorem dropWhile_of_head_false {α : Type} (p : α → Bool) (x : List α) (a : α)
    (hh : x.head? = some a) (ha : p a = false) : x.dropWhile p = x := by
  cases x with
  | nil => simp at hh
  | cons c t =>
    simp only [List.head?] at hh
    cases hh
    simp [List.dropWhile, ha]

theorem pyStrip_idem (l : Line) : pyStrip (pyStrip l) = pyStrip l := by
  unfold pyStrip
  have h2 : List.dropWhile Char.isWhitespace
      ((l.dropWhile Char.isWhitespace).reverse.dropWhile Char.isWhitespace) =
      (l.dropWhile Char.isWhitespace).reverse.dropWhile Char.isWhitespace :=
    dropWhile_self _ _
  have h1 : List.dropWhile Char.isWhitespace
      ((l.dropWhile Char.isWhitespace).reverse.dropWhile Char.isWhitespace).reverse =
      ((l.dropWhile Char.isWhitespace).reverse.dropWhile Char.isWhitespace).reverse := by
    cases hBr : ((l.dropWhile Char.isWhitespace).reverse.dropWhile
        Char.isWhitespace).reverse.head? with
    | none =>
      have : ((l.dropWhile Char.isWhitespace).reverse.dropWhile
          Char.isWhitespace).reverse = [] := by
        cases hb : ((l.dropWhile Char.isWhitespace).reverse.dropWhile
            Char.isWhitespace).reverse
        · rfl
        · rw [hb] at hBr; simp at hBr
      rw [this]
      rfl
    | some a =>
      apply dropWhile_of_head_false _ _ a hBr
      have hBne : (l.dropWhile Char.isWhitespace).reverse.dropWhile Char.isWhitespace ≠ [] := by
        intro he
        rw [he] at hBr
        simp at hBr
      have hlast : ((l.dropWhile Char.isWhitespace).reverse.dropWhile
          Char.isWhitespace).getLast? = (l.dropWhile Char.isWhitespace).reverse.getLast? :=
        getLast?_dropWhile _ _ hBne
      rw [List.head?_reverse, hlast, List.getLast?_reverse] at hBr
      exact head?_dropWhile_false _ _ _ hBr
  rw [h1, List.reverse_reverse, h2]

theorem removeSectionsGo_subset (s e : Line) :
    ∀ (b : Bool) (ls : List Line) (x : Line), x ∈ removeSectionsGo s e b ls → x ∈ ls := by
  intro b ls
  induction ls generalizing b with
  | nil => intro x h; simp [removeSectionsGo] at h
  | cons l t ih =>
    intro x h
    rw [removeSectionsGo] at h
    by_cases h1 : containsSub s l = true
    · rw [if_pos h1] at h
      exact List.mem_cons_of_mem _ (ih _ _ h)
    · rw [if_neg h1] at h
      by_cases h2 : containsSub e l = true
      · rw [if_pos h2] at h
        exact List.mem_cons_of_mem _ (ih _ _ h)
      · rw [if_neg h2] at h
        by_cases h3 : b = true
        · rw [if_pos h3] at h
          exact List.mem_cons_of_mem _ (ih _ _ h)
        · rw [if_neg h3] at h
          rcases List.mem_cons.mp h with h' | h'
          · exact h' ▸ List.mem_cons_self _ _
          · exact List.mem_cons_of_mem _ (ih _ _ h')

theorem sectionsFold_subset :
    ∀ (ps : List (Line × Line)) (lines : List Line) (x : Line),
      x ∈ ps.foldl (fun acc p => removeSections acc p.1 p.2) lines → x ∈ lines := by
  intro ps
  induction ps with
  | nil => intro lines x h; simpa using h
  | cons p pt ih =>
    intro lines x h
    have := ih (removeSections lines p.1 p.2) x h
    exact removeSectionsGo_subset _ _ _ _ _ this

theorem rcdFilter_subset :
    ∀ (v : List Nat) (i : Nat) (ls : List Line) (x : Line), x ∈ rcdFilter v i ls → x ∈ ls := by
  intro v i ls
  induction ls generalizing i with
  | nil => intro x h; simp [rcdFilter] at h
  | cons l t ih =>
    intro x h
    rw [rcdFilter] at h
    by_cases hc : (i ∈ v ∨ cimbDateMatch l = false)
    · rw [if_pos hc] at h
      rcases List.mem_cons.mp h with h' | h'
      · exact h' ▸ List.mem_cons_self _ _
      · exact List.mem_cons_of_mem _ (ih _ _ h')
    · rw [if_neg hc] at h
      exact List.mem_cons_of_mem _ (ih _ _ h)

theorem zipWithGet {α β γ : Type} (f : α → β → γ) :
    ∀ (as : List α) (bs : List β) (j : Nat) (ha : j < as.length) (hb : j < bs.length),
      (List.zipWith f as bs)[j]? = some (f (as.get ⟨j, ha⟩) (bs.get ⟨j, hb⟩)) := by
  intro as
  induction as with
  | nil => intro bs j ha; simp at ha
  | cons a as ih =>
    intro bs j ha hb
    cases bs with
    | nil => simp at hb
    | cons b bs =>
      cases j with
      | zero => simp [List.zipWith]
      | succ j =>
        simp only [List.zipWith, List.getElem?_cons_succ, List.get]
        exact ih bs j (by simpa using ha) (by simpa using hb)

/-! ## Claim C5: the Section Remover contract -/

/-- Claim C5 as stated is refuted here: with no start marker anywhere, the
claim says every line is kept, but the code drops the line containing the
end marker. -/
theorem claim_C5_cex :
    removeSections [("alpha").data, ("has END marker").data, ("beta").data]
      (("START").data) (("END").data) ≠
      [("alpha").data, ("has END marker").data, ("beta").data] := by decide

/-- Claim C5 (amended): the Section Remover removes every marker-bearing
line unconditionally — including an end-marker line with no preceding
unmatched start marker — and removes a non-marker line exactly when the most
recent marker-bearing line before it contains the start marker (sections are
open-ended at end of input); all other lines are kept unchanged and in
order.  This is the equivalence with the history-based reference
formulation. -/
theorem claim_C5 :
    ∀ (lines : List Line) (s e : Line),
      removeSections lines s e = removeSectionsSpec s e [] lines := by
  intro lines s e
  have h := removeSectionsGo_eq_spec s e lines []
  have h0 : lastMarkerStart s e [] = false := rfl
  rw [h0] at h
  exact h

/-! ## Claim C6: the CIMB close-dates pre-filter -/

/-- The close-dates rule exactly as the claim words it: a date line is kept
iff the three following positions exist date-free before any subsequent date
line (non-date lines always kept). -/
def closeDatesClaimFilter (data : List Line) : List Line :=
  (List.range data.length).filterMap fun i =>
    match data[i]? with
    | none => none
    | some l =>
      if !cimbDateMatch l then some l
      else if (List.range' (i + 1) 3).all
          (fun j => match data[j]? with | some x => !cimbDateMatch x | none => true) then
        some l
      else none

/-- Claim C6 as stated is refuted here: for two adjacent date lines the code
keeps the first (the greedy scan records it and shadows the second), while
the claim's local window condition would drop the first and keep the
second. -/
theorem claim_C6_cex :
    removeCloseDates [("01/01/2020").data, ("02/01/2020").data] ≠
      closeDatesClaimFilter [("01/01/2020").data, ("02/01/2020").data] := by decide

/-- Claim C6 (amended): the close-dates filter is the greedy left-to-right
scan — a date line is kept iff it is reached outside the 3-line shadow of
the previously kept date line, each kept date line shadowing the next three
positions (where date lines are dropped and other lines kept); non-date
lines are always kept unchanged. -/
theorem claim_C6 : ∀ data : List Line, removeCloseDates data = closeDatesSpec 0 data :=
  fun data => removeCloseDates_main data.length data (le_refl _) 0

/-! ## Claim C1: the maybank-debit end-to-end scenario -/

/-- The four-line fixture of the claim. -/
def exC1 : List Line :=
  [("01/03/21").data, ("150.00+").data, ("1,200.00").data, ("SALARY CREDIT").data]

/-- The record the code actually produces on that fixture. -/
def mbdC1Row : MbdRow :=
  { entryDate := ⟨2021, 3, 1⟩, txnType := ("150.00+").data,
    desc := ("SALARY CREDIT").data, amount := 1200, balance2 := none, flow := "unknown" }

/-- Claim C1 as stated is refuted here: the unique record produced carries
transaction amount 1200.00 (not 150.00), flow `unknown` (not `deposit`) and
a null statement balance (not 1200.00). -/
theorem claim_C1_cex :
    mbdParse exC1 = Except.ok [mbdC1Row] ∧
      mbdC1Row.amount ≠ 150 ∧ mbdC1Row.flow ≠ "deposit" ∧ mbdC1Row.balance2 = none := by
  decide

/-- Claim C1 (amended): on the fixture the pipeline yields exactly one
record with entry date 2021-03-01, transaction type `150.00+` (the first
captured slot), transaction amount 1200.00 (the second captured slot, after
the column renames), flow `unknown`, description `SALARY CREDIT`, and a null
statement balance (re-extraction from the description finds no
comma-grouped amount). -/
theorem claim_C1 :
    mbdParse exC1 = Except.ok [mbdC1Row] ∧
      mbdC1Row.entryDate = ⟨2021, 3, 1⟩ ∧ mbdC1Row.txnType = ("150.00+").data ∧
      mbdC1Row.desc = ("SALARY CREDIT").data ∧ mbdC1Row.amount = 1200 ∧
      mbdC1Row.flow = "unknown" ∧ mbdC1Row.balance2 = none := by
  decide

/-! ## Claims C7 and C10: CIMB flow classification -/

theorem cimbFlows_length (bals : List Line) : (cimbFlows bals).length = bals.length := by
  cases bals with
  | nil => rfl
  | cons b0 rest =>
    simp [cimbFlows, List.length_zipWith]

theorem cimbFlows_succ_get (bals : List Line) (j : Nat) (hj : j + 1 < bals.length) :
    (cimbFlows bals)[j + 1]? =
      some (some (cimbFlowOf (bals.get ⟨j, Nat.lt_of_succ_lt hj⟩) (bals.get ⟨j + 1, hj⟩))) := by
  cases bals with
  | nil => simp at hj
  | cons b0 rest =>
    have hr : j < rest.length := by simpa using hj
    have hb : j < (b0 :: rest).length := by simp; omega
    rw [cimbFlows, List.getElem?_cons_succ,
      zipWithGet (fun curr prev => some (cimbFlowOf prev curr)) rest (b0 :: rest) j hr hb]
    rfl

theorem cimbFlows_zero (bals : List Line) (h : bals ≠ []) :
    (cimbFlows bals)[0]? = some none := by
  cases bals with
  | nil => exact absurd rfl h
  | cons b0 rest => rw [cimbFlows]; simp

theorem cimbFlowOf_cases (p c : Line) :
    cimbFlowOf p c = "deposit" ∨ cimbFlowOf p c = "withdrawal" := by
  unfold cimbFlowOf
  cases toNumQ c with
  | none => right; cases toNumQ p <;> rfl
  | some cq =>
    cases toNumQ p with
    | none => right; rfl
    | some pq =>
      by_cases h : pq < cq
      · left; simp [h]
      · right; simp [h]

theorem cimbFlowOf_eq_or_nan (p c : Line)
    (h : toNumQ c = toNumQ p ∨ toNumQ c = none ∨ toNumQ p = none) :
    cimbFlowOf p c = "withdrawal" := by
  unfold cimbFlowOf
  cases hc : toNumQ c with
  | none => cases toNumQ p <;> rfl
  | some cq =>
    cases hp : toNumQ p with
    | none => rfl
    | some pq =>
      rcases h with h | h | h
      · rw [hc, hp] at h
        cases h
        simp [lt_irrefl]
      · rw [hc] at h; cases h
      · rw [hp] at h; cases h

theorem cimbZip_get :
    ∀ (rs : List CimbRec) (fs : List (Option String)) (j : Nat)
      (h1 : j < rs.length) (h2 : j < fs.length),
      (cimbZip rs fs)[j]? = some (cimbMkRow (rs.get ⟨j, h1⟩) (fs.get ⟨j, h2⟩)) := by
  intro rs
  induction rs with
  | nil => intro fs j h1; simp at h1
  | cons r rs ih =>
    intro fs j h1 h2
    cases fs with
    | nil => simp at h2
    | cons f fs =>
      cases j with
      | zero => rw [cimbZip]; simp
      | succ j =>
        rw [cimbZip, List.getElem?_cons_succ]
        exact ih fs j (by simpa using h1) (by simpa using h2)

theorem cimbZip_length :
    ∀ (rs : List CimbRec) (fs : List (Option String)),
      (cimbZip rs fs).length = min rs.length fs.length := by
  intro rs
  induction rs with
  | nil => intro fs; cases fs <;> simp [cimbZip]
  | cons r rs ih =>
    intro fs
    cases fs with
    | nil => simp [cimbZip]
    | cons f fs =>
      rw [cimbZip]
      simp only [List.length_cons, ih fs]
      omega

theorem cimbParse_ok (raw : List Line) (t : List CimbRow)
    (h : cimbParse raw = Except.ok t) :
    ∃ recs : List CimbRec, recs ≠ [] ∧
      t = cimbZip recs (cimbFlows (recs.map fun r => r.balance)) := by
  unfold cimbParse at h
  split at h
  · exact absurd h (by simp)
  · rename_i recs hcl
    split at h
    · exact absurd h (by simp)
    · split at h
      · exact absurd h (by simp)
      · split at h
        · exact absurd h (by simp)
        · rename_i hne _ _
          injection h with h'
          refine ⟨recs, ?_, h'.symm⟩
          intro he
          subst he
          simp at hne

/-- Claim C7 (confirmed): the CIMB flow for a record after the first is
derived by numerically comparing its balance with the previous record's — a
strictly greater balance yields `deposit`, a smaller one `withdrawal` — and
on the synthetic balances 100.00, 150.00, 120.00 the second and third flows
are `deposit` and `withdrawal`. -/
theorem claim_C7 :
    (∀ (bals : List Line) (j : Nat) (hj : j + 1 < bals.length) (p c : ℚ),
      toNumQ (bals.get ⟨j, Nat.lt_of_succ_lt hj⟩) = some p →
      toNumQ (bals.get ⟨j + 1, hj⟩) = some c →
      ((p < c → (cimbFlows bals)[j + 1]? = some (some "deposit")) ∧
       (c < p → (cimbFlows bals)[j + 1]? = some (some "withdrawal")))) ∧
    cimbFlows [("100.00").data, ("150.00").data, ("120.00").data] =
      [none, some "deposit", some "withdrawal"] := by
  constructor
  · intro bals j hj p c hp hc
    rw [cimbFlows_succ_get bals j hj]
    unfold cimbFlowOf
    rw [hp, hc]
    constructor <;> intro hlt
    · simp [hlt]
    · have hn : ¬ p < c := lt_asymm hlt
      simp [hn]
  · decide

theorem claim_C7_witness :
    (cimbFlows [("100.00").data, ("150.00").data, ("120.00").data])[0 + 1]? =
      some (some "deposit") :=
  (claim_C7.1 [("100.00").data, ("150.00").data, ("120.00").data] 0 (by decide) 100 150
    (by decide) (by decide)).1 (by decide)

/-- Claim C10 (confirmed): in every table the CIMB parser returns, the first
record's flow is null, and every later record's flow is `deposit` or
`withdrawal` (never `unknown`), with `withdrawal` whenever its balance
equals the previous record's balance numerically or either balance is
non-numeric. -/
theorem claim_C10 :
    ∀ (raw : List Line) (t : List CimbRow), cimbParse raw = Except.ok t →
      (t.map fun r => r.flow)[0]? = some none ∧
      ∀ (j : Nat) (hj : j + 1 < t.length),
        ((t.get ⟨j + 1, hj⟩).flow = some "deposit" ∨
         (t.get ⟨j + 1, hj⟩).flow = some "withdrawal") ∧
        ((toNumQ (t.get ⟨j + 1, hj⟩).balance =
            toNumQ (t.get ⟨j, Nat.lt_of_succ_lt hj⟩).balance ∨
          toNumQ (t.get ⟨j + 1, hj⟩).balance = none ∨
          toNumQ (t.get ⟨j, Nat.lt_of_succ_lt hj⟩).balance = none) →
         (t.get ⟨j + 1, hj⟩).flow = some "withdrawal") := by
  intro raw t h
  obtain ⟨recs, hne, ht⟩ := cimbParse_ok raw t h
  have hbl : (recs.map fun r => r.balance).length = recs.length := List.length_map _ _
  have hfl : (cimbFlows (recs.map fun r => r.balance)).length = recs.length := by
    rw [cimbFlows_length]; exact hbl
  have hlen : t.length = recs.length := by
    rw [ht, cimbZip_length]; omega
  have hpos : 0 < recs.length := List.length_pos.mpr hne
  have tget : ∀ (i : Nat) (hi : i < t.length) (hi2 : i < recs.length)
      (hif : i < (cimbFlows (recs.map fun r => r.balance)).length),
      t.get ⟨i, hi⟩ = cimbMkRow (recs.get ⟨i, hi2⟩)
        ((cimbFlows (recs.map fun r => r.balance)).get ⟨i, hif⟩) := by
    intro i hi hi2 hif
    have h1 : t[i]? = some (t.get ⟨i, hi⟩) := by
      rw [List.get_eq_getElem]
      exact List.getElem?_eq_getElem hi
    have h2 : t[i]? = some (cimbMkRow (recs.get ⟨i, hi2⟩)
        ((cimbFlows (recs.map fun r => r.balance)).get ⟨i, hif⟩)) := by
      rw [ht]
      exact cimbZip_get recs _ i hi2 hif
    have h3 := h1.symm.trans h2
    injection h3 with h3
  have fget : ∀ (j : Nat) (hjr : j + 1 < recs.length),
      (cimbFlows (recs.map fun r => r.balance)).get ⟨j + 1, by omega⟩ =
        some (cimbFlowOf (recs.get ⟨j, by omega⟩).balance
          (recs.get ⟨j + 1, hjr⟩).balance) := by
    intro j hjr
    have h2 := cimbFlows_succ_get (recs.map fun r => r.balance) j (by omega)
    have h3 : (cimbFlows (recs.map fun r => r.balance))[j + 1]? =
        some ((cimbFlows (recs.map fun r => r.balance)).get ⟨j + 1, by omega⟩) := by
      rw [List.get_eq_getElem]
      exact List.getElem?_eq_getElem (by omega)
    have h4 := h3.symm.trans h2
    injection h4 with h4
    rw [h4]
    simp [List.get_eq_getElem, List.getElem_map]
  constructor
  · have h0t : 0 < t.length := by omega
    rw [List.getElem?_map]
    have h1 : t[0]? = some (t.get ⟨0, h0t⟩) := by
      rw [List.get_eq_getElem]
      exact List.getElem?_eq_getElem h0t
    rw [h1]
    have h2 := tget 0 h0t hpos (by omega)
    have hf0 : (cimbFlows (recs.map fun r => r.balance)).get ⟨0, by omega⟩ = none := by
      have ha : (cimbFlows (recs.map fun r => r.balance))[0]? = some none :=
        cimbFlows_zero _ (by
          intro hm
          exact hne (List.map_eq_nil.mp hm))
      have hb : (cimbFlows (recs.map fun r => r.balance))[0]? =
          some ((cimbFlows (recs.map fun r => r.balance)).get ⟨0, by omega⟩) := by
        rw [List.get_eq_getElem]
        exact List.getElem?_eq_getElem (by omega)
      have hc := hb.symm.trans ha
      injection hc with hc
    rw [h2, hf0]
    rfl
  · intro j hj
    have hjr : j + 1 < recs.length := by omega
    have hrow1 := tget (j + 1) hj hjr (by omega)
    have hrow0 := tget j (Nat.lt_of_succ_lt hj) (by omega) (by omega)
    have hflow : (t.get ⟨j + 1, hj⟩).flow =
        some (cimbFlowOf (recs.get ⟨j, by omega⟩).balance
          (recs.get ⟨j + 1, hjr⟩).balance) := by
      rw [hrow1, fget j hjr]
      rfl
    have hb1 : (t.get ⟨j + 1, hj⟩).balance = (recs.get ⟨j + 1, hjr⟩).balance := by
      rw [hrow1]
      rfl
    have hb0 : (t.get ⟨j, Nat.lt_of_succ_lt hj⟩).balance =
        (recs.get ⟨j, by omega⟩).balance := by
      rw [hrow0]
      rfl
    constructor
    · rw [hflow]
      rcases cimbFlowOf_cases (recs.get ⟨j, by omega⟩).balance
          (recs.get ⟨j + 1, hjr⟩).balance with hcase | hcase
      · left; rw [hcase]
      · right; rw [hcase]
    · intro hcond
      rw [hflow]
      rw [hb1, hb0] at hcond
      rw [cimbFlowOf_eq_or_nan _ _ hcond]

/-- A concrete CIMB document on which the parser succeeds. -/
def exCimb : List Line :=
  [("OPENING BALANCE").data, ("100.00").data, ("01/01/2023 TRANSFER").data,
   ("PAYEE ONE").data, ("50.00").data, ("150.00").data, ("02/01/2023 TRANSFER").data,
   ("PAYEE TWO").data, ("-30.00").data, ("120.00").data]

def exCimbRows : List CimbRow :=
  [{ date := none, txnType := none, desc := ("Opening Balance").data,
     desc2 := ("Opening Balance").data, amount := some (("100.00").data),
     balance := ("-").data, flow := none },
   { date := some (("01/01/2023").data), txnType := some (("TRANSFER").data),
     desc := ("ONE, PAYEE ONE").data, desc2 := ("ONE").data,
     amount := some (("50.00").data), balance := ("150.00").data,
     flow := some "withdrawal" },
   { date := some (("02/01/2023").data), txnType := some (("TRANSFER").data),
     desc := ("TWO, PAYEE TWO").data, desc2 := ("TWO").data,
     amount := some (("-30.00").data), balance := ("120.00").data,
     flow := some "withdrawal" }]

theorem claim_C10_witness :
    (exCimbRows.map fun r => r.flow)[0]? = some none ∧
    (exCimbRows.get ⟨0 + 1, by decide⟩).flow = some "withdrawal" := by
  have h := claim_C10 exCimb exCimbRows (by decide)
  exact ⟨h.1, ((h.2 0 (by decide)).2 (Or.inr (Or.inr (by decide))))⟩

/-! ## Claim C3: the m2u year-resolution priority -/

/-- Claim C3 (confirmed): the statement year is resolved by exactly the
three-tier priority — first-`STATEMENT DATE`-window, first date anywhere,
filename digits — an earlier tier always winning, and the parser fails with
the year error when all three tiers fail. -/
theorem claim_C3 :
    (∀ (lines : List Line) (fn : Line), m2uResolveYear lines fn = m2uYearSpec lines fn) ∧
    (∀ (raw : List Line) (fn : Line), m2uResolveYear (m2uLoad raw) fn = none →
      m2uParse raw fn = Except.error PErr.noYear) := by
  constructor
  · exact m2uResolveYear_eq_spec
  · intro raw fn h
    unfold m2uParse
    rw [h]

theorem claim_C3_witness :
    m2uParse [("no dates here").data] (("statement.pdf").data) = Except.error PErr.noYear :=
  claim_C3.2 [("no dates here").data] (("statement.pdf").data) (by decide)

/-! ## Claim C4: sealing of anchor-opened records -/

/-- Claim C4 as stated is refuted here: on this m2u input two anchor lines
open records, but both are silently discarded (sealing requires a non-empty
description buffer), so the assembler returns no records at all. -/
theorem claim_C4_cex :
    m2uAssemble [("01/02").data, ("100.00+").data, ("02/02").data, ("200.00+").data] = [] ∧
    m2uCountAnchors [("01/02").data, ("100.00+").data, ("02/02").data, ("200.00+").data]
      = 2 := by decide

theorem mbdGo_nil (cur : Option MbdWork) :
    mbdGo cur [] = Except.ok (match cur with | some w => [w] | none => []) := rfl

theorem mbdGo_cons (cur : Option MbdWork) (l : Line) (ls : List Line) :
    mbdGo cur (l :: ls) =
      (if mbdAnchor l then
        (fun rest =>
          (match cur with | some w => [w] | none => []) ++ rest) <$>
          mbdGo (some ⟨some l, some [], some [], some []⟩) ls
      else
        match cur with
        | none => mbdGo (some ⟨none, none, some (pyStrip l), none⟩) ls
        | some w =>
          if !(w.amtSlot.getD []).isEmpty && (w.balSlot.getD []).isEmpty then
            mbdGo (some { w with balSlot := some (pyStrip l) }) ls
          else if (w.amtSlot.getD []).isEmpty then
            mbdGo (some { w with amtSlot := some (pyStrip l) }) ls
          else
            match w.desc with
            | none => Except.error PErr.keyError
            | some d =>
              mbdGo (some { w with desc := some (d ++ pyStrip l ++ (", ").data) }) ls) := rfl

theorem mbdGo_count :
    ∀ (ls : List Line) (cur : Option MbdWork) (rs : List MbdWork),
      mbdGo cur ls = Except.ok rs →
      (ls.filter mbdAnchor).length + (if cur.isSome then 1 else 0) ≤ rs.length := by
  intro ls
  induction ls with
  | nil =>
    intro cur rs h
    rw [mbdGo_nil] at h
    injection h with h
    subst h
    cases cur <;> simp
  | cons l t ih =>
    intro cur rs h
    rw [mbdGo_cons] at h
    by_cases ha : mbdAnchor l = true
    · rw [if_pos ha] at h
      cases hg : mbdGo (some ⟨some l, some [], some [], some []⟩) t with
      | error e =>
        rw [hg] at h
        simp [Functor.map, Except.map] at h
      | ok rs2 =>
        rw [hg] at h
        simp only [Functor.map, Except.map, Except.ok.injEq] at h
        have hih := ih _ _ hg
        simp at hih
        subst h
        rw [List.filter_cons_of_pos ha, List.length_append]
        cases cur <;> simp <;> omega
    · rw [if_neg ha] at h
      have hfil : ((l :: t).filter mbdAnchor).length = (t.filter mbdAnchor).length := by
        rw [List.filter_cons_of_neg (by simpa using ha)]
      rw [hfil]
      cases cur with
      | none =>
        have hih := ih _ _ h
        simp at hih ⊢
        omega
      | some w =>
        have h2 : (if !(w.amtSlot.getD []).isEmpty && (w.balSlot.getD []).isEmpty then
              mbdGo (some { w with balSlot := some (pyStrip l) }) t
            else if (w.amtSlot.getD []).isEmpty then
              mbdGo (some { w with amtSlot := some (pyStrip l) }) t
            else
              match w.desc with
              | none => Except.error PErr.keyError
              | some d =>
                mbdGo (some { w with desc := some (d ++ pyStrip l ++ (", ").data) }) t) =
            Except.ok rs := h
        by_cases hc1 : (!(w.amtSlot.getD []).isEmpty && (w.balSlot.getD []).isEmpty) = true
        · rw [if_pos hc1] at h2
          have hih := ih _ _ h2
          simp at hih
          simpa using hih
        · rw [if_neg hc1] at h2
          by_cases hc2 : (w.amtSlot.getD []).isEmpty = true
          · rw [if_pos hc2] at h2
            have hih := ih _ _ h2
            simp at hih
            simpa using hih
          · rw [if_neg hc2] at h2
            cases hd : w.desc with
            | none =>
              rw [hd] at h2
              exact Except.noConfusion h2
            | some d =>
              rw [hd] at h2
              have hih := ih _ _ h2
              simp at hih
              simpa using hih

theorem m2uGo_nil (cur : Option M2uWork) (ds : List Line) :
    m2uGo cur ds [] =
      (match cur with
        | some w => if ds.isEmpty then [] else [m2uSeal w ds]
        | none => []) := rfl

theorem m2uGo_cons (cur : Option M2uWork) (ds : List Line) (l0 : Line) (ls : List Line) :
    m2uGo cur ds (l0 :: ls) =
      (if m2uAnchor (pyStrip l0) then
        (match cur with
          | some w => if ds.isEmpty then [] else [m2uSeal w ds]
          | none => []) ++ m2uGo (some ⟨pyStrip l0, none, none⟩) [] ls
      else
        match cur with
        | none => m2uGo none ds ls
        | some w =>
          match m2uFirstAmount (pyStrip l0) with
          | some a =>
            if ((pyStrip l0).contains '+' || (pyStrip l0).contains '-') && w.amt.isNone then
              m2uGo (some { w with amt := some a }) ds ls
            else if w.amt.isSome && w.bal.isNone then
              m2uGo (some { w with bal := some a }) ds ls
            else
              m2uGo (some w) (ds ++ [pyStrip l0]) ls
          | none => m2uGo (some w) (ds ++ [pyStrip l0]) ls) := rfl

theorem m2uGo_count :
    ∀ (ls : List Line) (cur : Option M2uWork) (ds : List Line),
      (m2uGo cur ds ls).length ≤
        (ls.filter (fun l => m2uAnchor (pyStrip l))).length +
          (if cur.isSome then 1 else 0) := by
  intro ls
  induction ls with
  | nil =>
    intro cur ds
    rw [m2uGo_nil]
    cases cur with
    | none => simp
    | some w =>
      by_cases hd : ds.isEmpty = true <;> simp [hd]
  | cons l t ih =>
    intro cur ds
    by_cases ha : m2uAnchor (pyStrip l) = true
    · rw [m2uGo_cons, if_pos ha, List.filter_cons_of_pos (by simpa using ha),
        List.length_append]
      have hih := ih (some ⟨pyStrip l, none, none⟩) []
      simp at hih
      have hsl : (match cur with
          | some w => if ds.isEmpty then ([] : List M2uRec) else [m2uSeal w ds]
          | none => []).length ≤ (if cur.isSome then 1 else 0) := by
        cases cur with
        | none => simp
        | some w => by_cases hd : ds.isEmpty = true <;> simp [hd]
      simp only [List.length_cons]
      omega
    · rw [List.filter_cons_of_neg (by simpa using ha)]
      cases cur with
      | none =>
        have h0 : m2uGo none ds (l :: t) = m2uGo none ds t := by
          rw [m2uGo_cons, if_neg ha]
        rw [h0]
        have hih := ih none ds
        simpa using hih
      | some w =>
        have hgoal : ∀ (cur2 : Option M2uWork) (ds2 : List Line), cur2.isSome = true →
            (m2uGo cur2 ds2 t).length ≤
              (t.filter (fun x => m2uAnchor (pyStrip x))).length +
                (if (some w : Option M2uWork).isSome then 1 else 0) := by
          intro cur2 ds2 hs
          have hih := ih cur2 ds2
          cases cur2
          · simp at hs
          · simpa using hih
        cases hm : m2uFirstAmount (pyStrip l) with
        | some a =>
          by_cases h1 :
              (((pyStrip l).contains '+' || (pyStrip l).contains '-') && w.amt.isNone) = true
          · have h2 : m2uGo (some w) ds (l :: t) =
                m2uGo (some { w with amt := some a }) ds t := by
              rw [m2uGo_cons, if_neg ha, hm]
              dsimp only
              rw [if_pos h1]
            rw [h2]
            exact hgoal _ _ rfl
          · by_cases h2 : (w.amt.isSome && w.bal.isNone) = true
            · have h3 : m2uGo (some w) ds (l :: t) =
                  m2uGo (some { w with bal := some a }) ds t := by
                rw [m2uGo_cons, if_neg ha, hm]
                dsimp only
                rw [if_neg h1, if_pos h2]
              rw [h3]
              exact hgoal _ _ rfl
            · have h3 : m2uGo (some w) ds (l :: t) =
                  m2uGo (some w) (ds ++ [pyStrip l]) t := by
                rw [m2uGo_cons, if_neg ha, hm]
                dsimp only
                rw [if_neg h1, if_neg h2]
              rw [h3]
              exact hgoal _ _ rfl
        | none =>
          have h3 : m2uGo (some w) ds (l :: t) =
              m2uGo (some w) (ds ++ [pyStrip l]) t := by
            rw [m2uGo_cons, if_neg ha, hm]
          rw [h3]
          exact hgoal _ _ rfl

theorem rhbGo_nil (cur : Option RTxn) :
    rhbGo cur [] = (match cur with | some t => [t] | none => []) := rfl

theorem rhbGo_cons (cur : Option RTxn) (l0 : Line) (ls : List Line) :
    rhbGo cur (l0 :: ls) =
      (match rhbDateAt (pyStrip l0) with
        | some dm =>
          (match cur with | some t => [t] | none => []) ++ rhbGo (some ⟨dm, []⟩) ls
        | none =>
          match cur with
          | some t => rhbGo (some ⟨t.date, t.lines ++ [pyStrip l0]⟩) ls
          | none => rhbGo none ls) := rfl

theorem rhbGo_count :
    ∀ (ls : List Line) (cur : Option RTxn),
      (rhbGo cur ls).length =
        (ls.filter (fun l => (rhbDateAt (pyStrip l)).isSome)).length +
          (if cur.isSome then 1 else 0) := by
  intro ls
  induction ls with
  | nil =>
    intro cur
    rw [rhbGo_nil]
    cases cur <;> simp
  | cons l t ih =>
    intro cur
    rw [rhbGo_cons]
    cases hd : rhbDateAt (pyStrip l) with
    | some dm =>
      rw [List.filter_cons_of_pos (by simp [hd])]
      have hih := ih (some ⟨dm, []⟩)
      simp only [Option.isSome_some, if_pos rfl] at hih
      rw [List.length_append, hih]
      cases cur <;> simp <;> omega
    | none =>
      rw [List.filter_cons_of_neg (by simp [hd])]
      cases cur with
      | none => exact ih none
      | some tx =>
        have hih := ih (some ⟨tx.date, tx.lines ++ [pyStrip l]⟩)
        simpa using hih

/-- Claim C4 (amended): the maybank-debit assembler seals every
anchor-opened record (at the next anchor or at end-of-input), so when it
succeeds it returns at least one record per anchor line; the RHB grouping
seals exactly one record per anchor; but the m2u assembler seals a record —
previous or final — only when its description buffer is non-empty, so it
returns at most one record per anchor and silently discards anchor-opened
records whose description buffer is empty. -/
theorem claim_C4 :
    (∀ (lines : List Line) (rs : List MbdWork), mbdAssemble lines = Except.ok rs →
      mbdCountAnchors lines ≤ rs.length) ∧
    (∀ lines : List Line, (m2uAssemble lines).length ≤ m2uCountAnchors lines) ∧
    (∀ lines : List Line, (rhbGo none lines).length = rhbCountAnchors lines) := by
  refine ⟨?_, ?_, ?_⟩
  · intro lines rs h
    have := mbdGo_count lines none rs h
    simpa [mbdCountAnchors] using this
  · intro lines
    have := m2uGo_count lines none []
    simpa [m2uAssemble, m2uCountAnchors] using this
  · intro lines
    have := rhbGo_count lines none
    simpa [rhbCountAnchors] using this

theorem claim_C4_witness :
    mbdCountAnchors exC1 ≤
      ([⟨some (("01/03/21").data), some (("SALARY CREDIT, ").data),
        some (("150.00+").data), some (("1,200.00").data)⟩] : List MbdWork).length :=
  claim_C4.1 exC1 _ (by decide)

/-! ## Claim C2: non-null amounts in returned tables -/

/-- A maybank-credit document whose first record has no amount line before
the next anchor pair. -/
def exCred : List Line :=
  [("01/02").data, ("03/02").data, ("DESC").data, ("04/02").data, ("05/02").data,
   ("100.00").data]

def credRow0 : CredRow :=
  { year := 2023, posting := ("03/02").data, txn := ("01/02").data,
    desc := ("DESC").data, amount := none }

def credRow1 : CredRow :=
  { year := 2023, posting := ("05/02").data, txn := ("04/02").data,
    desc := [], amount := some 100 }

/-- Claim C2 as stated is refuted here: the maybank-credit handler succeeds
on this document and returns a table whose first record has a null amount. -/
theorem claim_C2_cex :
    credParse exCred (("stmt_2023.pdf").data) 2025 = Except.ok [credRow0, credRow1] ∧
      credRow0.amount = none := by decide

/-- Claim C2 (amended): the invariant holds for the m2u handler — every
record in a table it returns has a non-null amount, because null-amount rows
are dropped — but not for every handler (maybank_credit can return
null-amount records, as the counterexample shows). -/
theorem claim_C2 :
    ∀ (raw : List Line) (fn : Line) (t : List M2uRow),
      m2uParse raw fn = Except.ok t → ∀ r ∈ t, r.amount.isSome = true := by
  intro raw fn t h r hr
  unfold m2uParse at h
  split at h
  · exact absurd h (by simp)
  · split at h
    · exact absurd h (by simp)
    · unfold m2uPost at h
      split at h
      · exact absurd h (by simp)
      · split at h
        · exact absurd h (by simp)
        · split at h
          · exact absurd h (by simp)
          · injection h with h
            subst h
            exact (List.mem_filter.mp hr).2

def exM2u : List Line :=
  [("STATEMENT DATE : 01/03/21").data, ("01/03").data, ("100.00+").data, ("SALARY").data]

def exM2uRow : M2uRow :=
  { entryDate := ⟨2021, 3, 1⟩, desc := ("SALARY").data, amount := some 100,
    balance := none, flow := some "inflow" }

theorem claim_C2_witness : exM2uRow.amount.isSome = true :=
  claim_C2 exM2u (("doc.pdf").data) [exM2uRow] (by decide) exM2uRow (by simp)

/-! ## Claim C8: the RHB shift invariant -/

theorem rhbEmit_len (comp : List RComp) : (rhbEmit comp).length = comp.length := by
  cases comp with
  | nil => rfl
  | cons c0 rest => simp [rhbEmit, List.length_zipWith]

/-- Claim C8: on every document the rhb_flex handler accepts, the table has
one row per grouped transaction; row 0 carries null dr, cr and reference
fields; and for every later row, its dr, cr and reference fields equal the
ones computed from the previous transaction's own trailing text (the
`shift(1)` of those three columns). -/
theorem claim_C8 (raw : List Line) (rows : List RRow)
    (h : rhbParse raw = Except.ok rows) :
    rows.length = ((rhbGo none raw).map rhbCompute).length ∧
    (∀ r0 : RRow, rows[0]? = some r0 → r0.dr = none ∧ r0.cr = none ∧ r0.ref = none) ∧
    (∀ (i : Nat) (r : RRow) (c : RComp),
      rows[i + 1]? = some r → ((rhbGo none raw).map rhbCompute)[i]? = some c →
      r.dr = some c.dr ∧ r.cr = some c.cr ∧ r.ref = some c.ref) := by
  unfold rhbParse at h
  have h2 : (if (rhbGo none raw).isEmpty then (Except.error PErr.noTrans : Except PErr (List RRow))
      else Except.ok (rhbEmit ((rhbGo none raw).map rhbCompute))) = Except.ok rows := h
  clear h
  split at h2
  · exact absurd h2 (by simp)
  · injection h2 with h2
    subst h2
    generalize (rhbGo none raw).map rhbCompute = comp
    cases comp with
    | nil =>
      refine ⟨rfl, ?_, ?_⟩
      · intro r0 h0
        exact absurd h0 (by simp [rhbEmit])
      · intro i r c h1 h2
        exact absurd h1 (by simp [rhbEmit])
    | cons c0 rest =>
      refine ⟨by simp [rhbEmit, List.length_zipWith], ?_, ?_⟩
      · intro r0 h0
        have h0x : rhbMkRow c0 none = r0 := by simpa [rhbEmit] using h0
        subst h0x
        exact ⟨rfl, rfl, rfl⟩
      · intro i r c h1 h2
        have hlen : i < (c0 :: rest).length := by
          by_contra hn
          rw [List.getElem?_eq_none (by omega)] at h2
          exact absurd h2 (by simp)
        have hr1 : i < rest.length := by
          by_contra hn
          rw [show rhbEmit (c0 :: rest) = rhbMkRow c0 none ::
                List.zipWith (fun cur prev => rhbMkRow cur (some prev)) rest (c0 :: rest)
              from rfl, List.getElem?_cons_succ,
              List.getElem?_eq_none (by simp [List.length_zipWith]; omega)] at h1
          exact absurd h1 (by simp)
        have hz := zipWithGet (fun cur prev => rhbMkRow cur (some prev)) rest (c0 :: rest)
          i hr1 hlen
        rw [show rhbEmit (c0 :: rest) = rhbMkRow c0 none ::
              List.zipWith (fun cur prev => rhbMkRow cur (some prev)) rest (c0 :: rest)
            from rfl, List.getElem?_cons_succ, hz] at h1
        injection h1 with h1
        subst h1
        have hc2 : (c0 :: rest).get ⟨i, hlen⟩ = c := by
          rw [List.getElem?_eq_getElem hlen] at h2
          injection h2 with h2
        subst hc2
        exact ⟨rfl, rfl, rfl⟩

def exRhb : List Line :=
  [("01-03-21 HELLO").data, ("100.00 CR").data, ("02-03-21 WORLD").data]

def exRhbRow1 : RRow :=
  { date := some (("02-03-21").data), desc := [], sender := [],
    dr := some [], cr := some (("100.00").data), balance := [], ref := some [] }

def exRhbComp0 : RComp :=
  { date := ("01-03-21").data, desc := [], sender := [], dr := [],
    cr := ("100.00").data, balance := [], ref := [] }

theorem claim_C8_witness :
    exRhbRow1.cr = some exRhbComp0.cr ∧ exRhbRow1.dr = some exRhbComp0.dr := by
  have h := claim_C8 exRhb
    [{ date := some (("01-03-21").data), desc := [], sender := [], dr := none,
       cr := none, balance := [], ref := none }, exRhbRow1] (by decide)
  have h2 := h.2.2 0 exRhbRow1 exRhbComp0 (by decide) (by decide)
  exact ⟨h2.2.1, h2.1⟩

/-! ## Claim C9: anchor-free documents -/

theorem m2uGo_none :
    ∀ (ls : List Line) (ds : List Line), (∀ x ∈ ls, m2uAnchor (pyStrip x) = false) →
      m2uGo none ds ls = [] := by
  intro ls
  induction ls with
  | nil => intro ds h; rfl
  | cons l t ih =>
    intro ds h
    have h0 : m2uGo none ds (l :: t) = m2uGo none ds t := by
      rw [m2uGo_cons, if_neg (by simp [h l (by simp)])]
    rw [h0]
    exact ih ds (fun x hx => h x (List.mem_cons_of_mem _ hx))

theorem mbdGo_phantom :
    ∀ (ls : List Line) (cur : Option MbdWork),
      (∀ x ∈ ls, mbdAnchor x = false) →
      (cur = none ∨ ∃ w, cur = some w ∧ w.desc = none) →
      mbdGo cur ls = Except.error PErr.keyError ∨
      mbdGo cur ls = Except.ok [] ∨
      ∃ w, mbdGo cur ls = Except.ok [w] ∧ w.desc = none := by
  intro ls
  induction ls with
  | nil =>
    intro cur hna hcur
    rcases hcur with rfl | ⟨w, rfl, hd⟩
    · right; left; rfl
    · right; right; exact ⟨w, rfl, hd⟩
  | cons l t ih =>
    intro cur hna hcur
    have ha : mbdAnchor l = false := hna l (by simp)
    have hna2 : ∀ x ∈ t, mbdAnchor x = false := fun x hx => hna x (List.mem_cons_of_mem _ hx)
    rcases hcur with rfl | ⟨w, rfl, hd⟩
    · have he : mbdGo none (l :: t) = mbdGo (some ⟨none, none, some (pyStrip l), none⟩) t := by
        rw [mbdGo_cons, if_neg (by simp [ha])]
      rw [he]
      exact ih _ hna2 (Or.inr ⟨_, rfl, rfl⟩)
    · by_cases h1 : (!(w.amtSlot.getD []).isEmpty && (w.balSlot.getD []).isEmpty) = true
      · have he : mbdGo (some w) (l :: t) =
            mbdGo (some { w with balSlot := some (pyStrip l) }) t := by
          rw [mbdGo_cons, if_neg (by simp [ha])]
          dsimp only
          rw [if_pos h1]
        rw [he]
        exact ih _ hna2 (Or.inr ⟨_, rfl, hd⟩)
      · by_cases h2 : ((w.amtSlot.getD []).isEmpty) = true
        · have he : mbdGo (some w) (l :: t) =
              mbdGo (some { w with amtSlot := some (pyStrip l) }) t := by
            rw [mbdGo_cons, if_neg (by simp [ha])]
            dsimp only
            rw [if_neg h1, if_pos h2]
          rw [he]
          exact ih _ hna2 (Or.inr ⟨_, rfl, hd⟩)
        · have he : mbdGo (some w) (l :: t) = Except.error PErr.keyError := by
            rw [mbdGo_cons, if_neg (by simp [ha])]
            dsimp only
            rw [if_neg h1, if_neg h2, hd]
          rw [he]
          left; rfl

theorem credLoopF_none :
    ∀ (fuel : Nat) (ls : List Line), (∀ l ∈ ls, credAnchor l = false) →
      credLoopF fuel ls = [] := by
  intro fuel
  induction fuel with
  | zero => intro ls h; rfl
  | succ f ih =>
    intro ls h
    cases ls with
    | nil => rfl
    | cons l1 t1 =>
      cases t1 with
      | nil => rfl
      | cons l2 rest =>
        rw [credLoopF, if_neg (by simp [h l1 (by simp)])]
        exact ih (l2 :: rest) (fun l hl => h l (List.mem_cons_of_mem _ hl))

theorem cimbLoopF_cons (fuel : Nat) (l : Line) (ls : List Line) :
    cimbLoopF (fuel + 1) (l :: ls) =
      (if l = ("OPENING BALANCE").data then
        match ls with
        | [] => Except.error PErr.indexError
        | amt :: rest =>
          (fun rs =>
            { date := ("-").data, desc := ("Opening Balance").data,
              amount := some (pyStrip amt), balance := ("-").data,
              payee := ("-").data } :: rs) <$> cimbLoopF fuel rest
      else if cimbDateMatch l then
        (fun rs => cimbMkRec l (cimbAfterDate ls) :: rs) <$>
          cimbLoopF fuel (cimbAfterDate ls).2.2
      else cimbLoopF fuel ls) := rfl

theorem cimbLoopF_none :
    ∀ (fuel : Nat) (ls : List Line),
      (∀ l ∈ ls, cimbDateMatch l = false ∧ l ≠ ("OPENING BALANCE").data) →
      cimbLoopF fuel ls = Except.ok [] := by
  intro fuel
  induction fuel with
  | zero => intro ls h; rfl
  | succ f ih =>
    intro ls h
    cases ls with
    | nil => rfl
    | cons l t =>
      have hl := h l (by simp)
      rw [cimbLoopF_cons, if_neg hl.2, if_neg (by simp [hl.1])]
      exact ih t (fun x hx => h x (List.mem_cons_of_mem _ hx))

theorem rhbGo_none :
    ∀ ls : List Line, (∀ l ∈ ls, rhbDateAt (pyStrip l) = none) → rhbGo none ls = [] := by
  intro ls
  induction ls with
  | nil => intro h; rfl
  | cons l t ih =>
    intro h
    have h0 : rhbGo none (l :: t) = rhbGo none t := by
      rw [rhbGo_cons, h l (by simp)]
    rw [h0]
    exact ih (fun x hx => h x (List.mem_cons_of_mem _ hx))

/-- Claim C9 (amended): for every format handler, a document with no
anchor-matching line raises an error rather than returning an empty table —
but the error is not always the no-transactions one.  The maybank_credit,
CIMB and RHB handlers do raise exactly the no-transactions error; the m2u
handler raises the no-year error instead whenever year resolution also
fails, and the maybank_debit handler raises a `KeyError` instead whenever a
phantom record survives to the description pass (and in no case does any of
them return an empty table). -/
theorem claim_C9 :
    (∀ (raw : List Line) (fn : Line), (∀ l ∈ raw, m2uAnchor (pyStrip l) = false) →
      m2uParse raw fn = Except.error PErr.noYear ∨
      m2uParse raw fn = Except.error PErr.noTrans) ∧
    (∀ raw : List Line, (∀ l ∈ raw, mbdAnchor l = false) →
      mbdParse raw = Except.error PErr.noTrans ∨
      mbdParse raw = Except.error PErr.keyError) ∧
    (∀ (raw : List Line) (fn : Line) (y : Nat), (∀ l ∈ raw, credAnchor l = false) →
      credParse raw fn y = Except.error PErr.noTrans) ∧
    (∀ raw : List Line,
      (∀ l ∈ raw, cimbDateMatch l = false ∧ l ≠ ("OPENING BALANCE").data) →
      cimbParse raw = Except.error PErr.noTrans) ∧
    (∀ raw : List Line, (∀ l ∈ raw, rhbDateAt (pyStrip l) = none) →
      rhbParse raw = Except.error PErr.noTrans) := by
  refine ⟨?_, ?_, ?_, ?_, ?_⟩
  · intro raw fn hna
    unfold m2uParse
    cases hy : m2uResolveYear (m2uLoad raw) fn with
    | none => left; rfl
    | some y =>
      right
      have hemp : m2uAssemble (m2uPrep raw) = [] := by
        unfold m2uAssemble
        apply m2uGo_none
        intro x hx
        unfold m2uPrep at hx
        have hx1 := (List.mem_filter.mp hx).1
        have hx2 := sectionsFold_subset m2uSections (m2uLoad raw) x hx1
        unfold m2uLoad at hx2
        obtain ⟨l, hl, hlx⟩ := List.mem_filterMap.mp hx2
        have hlx2 : (if (pyStrip l).isEmpty then none else some (pyStrip l)) = some x := hlx
        by_cases he : (pyStrip l).isEmpty = true
        · rw [if_pos he] at hlx2
          exact absurd hlx2 (by simp)
        · rw [if_neg he] at hlx2
          injection hlx2 with hlx2
          rw [← hlx2, pyStrip_idem]
          exact hna l hl
      rw [hemp]
      rfl
  · intro raw hna
    have hna2 : ∀ x ∈ mbdPrep raw, mbdAnchor x = false := by
      intro x hx
      unfold mbdPrep at hx
      have hx1 := (List.mem_filter.mp hx).1
      exact hna x (sectionsFold_subset mbdSections raw x hx1)
    have hph := mbdGo_phantom (mbdPrep raw) none hna2 (Or.inl rfl)
    rcases hph with he | he | ⟨w, he, hd⟩
    · right
      unfold mbdParse
      rw [show mbdAssemble (mbdPrep raw) = mbdGo none (mbdPrep raw) from rfl, he]
    · left
      unfold mbdParse
      rw [show mbdAssemble (mbdPrep raw) = mbdGo none (mbdPrep raw) from rfl, he]
      rfl
    · right
      have hr : mbdRstrip w = Except.error PErr.keyError := by
        unfold mbdRstrip
        rw [hd]
      have hm : ([w].mapM mbdRstrip : Except PErr (List MbdWork)) =
          Except.error PErr.keyError := by
        rw [List.mapM_cons, hr]
        rfl
      have hstep : mbdParse raw =
          (match ([w].mapM mbdRstrip : Except PErr (List MbdWork)) with
            | Except.error e => Except.error e
            | Except.ok recs2 =>
              if recs2.isEmpty then Except.error PErr.noTrans else mbdPost recs2) := by
        unfold mbdParse
        rw [show mbdAssemble (mbdPrep raw) = mbdGo none (mbdPrep raw) from rfl, he]
      rw [hstep, hm]
  · intro raw fn y hna
    have key : credLoop (raw.filter fun l => !(commonNoise.any fun s => containsSub s l)) =
        [] := by
      unfold credLoop
      apply credLoopF_none
      intro l hl
      exact hna l (List.mem_filter.mp hl).1
    have h2 : (if (credLoop (raw.filter fun l =>
          !(commonNoise.any fun s => containsSub s l))).isEmpty then
          (Except.error PErr.noTrans : Except PErr (List CredRow))
        else do
          let padded := padEmpty none
            ((credLoop (raw.filter fun l => !(commonNoise.any fun s =>
              containsSub s l))).map fun r => r.amount.filter fun c => c != ',')
          let amts ← padded.mapM fun o =>
            match o with
            | none => Except.ok (none : Option ℚ)
            | some s =>
              match parseFloat s with
              | some q => Except.ok (some q)
              | none => Except.error PErr.valueErr
          Except.ok (credZip (credYear fn y)
            (credLoop (raw.filter fun l => !(commonNoise.any fun s => containsSub s l)))
            amts)) = credParse raw fn y := rfl
    rw [← h2, key]
    rfl
  · intro raw hna
    have hmem : ∀ x ∈ cimbPrep raw,
        cimbDateMatch x = false ∧ x ≠ ("OPENING BALANCE").data := by
      intro x hx
      unfold cimbPrep at hx
      obtain ⟨y, hy, hgy⟩ := List.mem_map.mp hx
      have hgy2 : (if y = ("99 SPEEDMART-2133").data then
          ("ninetynine speed mart").data else y) = x := hgy
      have hy2 := (List.mem_filter.mp hy).1
      unfold removeCloseDates at hy2
      have hy3 := rcdFilter_subset _ _ _ y hy2
      have hy4 := (List.mem_filter.mp hy3).1
      unfold removeSections at hy4
      have hy5 := removeSectionsGo_subset _ _ false raw y hy4
      by_cases hsp : y = ("99 SPEEDMART-2133").data
      · rw [if_pos hsp] at hgy2
        rw [← hgy2]
        exact ⟨by decide, by decide⟩
      · rw [if_neg hsp] at hgy2
        rw [← hgy2]
        exact hna y hy5
    have key : cimbLoop (cimbPrep raw) = Except.ok [] := by
      unfold cimbLoop
      exact cimbLoopF_none _ _ hmem
    unfold cimbParse
    rw [key]
    rfl
  · intro raw hna
    have key : rhbGo none raw = [] := rhbGo_none raw hna
    have h2 : (if (rhbGo none raw).isEmpty then
          (Except.error PErr.noTrans : Except PErr (List RRow))
        else Except.ok (rhbEmit ((rhbGo none raw).map rhbCompute))) = rhbParse raw := rfl
    rw [← h2, key]
    rfl

/-- Claim C9 is refuted as stated for m2u: an anchor-free document with no
recoverable year raises the no-year error, not the no-transactions one. -/
theorem claim_C9_cex :
    m2uParse [("hello").data] (("doc.pdf").data) = Except.error PErr.noYear ∧
      PErr.noYear ≠ PErr.noTrans := by decide

theorem claim_C9_witness :
    credParse [("just text").data] (("a.pdf").data) 2024 = Except.error PErr.noTrans ∧
      rhbParse [("just text").data] = Except.error PErr.noTrans := by
  refine ⟨claim_C9.2.2.1 [("just text").data] (("a.pdf").data) 2024 (by decide),
    claim_C9.2.2.2.2 [("just text").data] (by decide)⟩
